import Mathlib

/-!
# Verification of the ssq lottery generation / backtest core

Shallow embedding of the Python sources under `ssq_backend/` (constraint
policy, generator family, fusion engine, selection manager, backtest
simulator) together with proofs and refutations of the specification
claims.  Machine floats and `Decimal` values are modelled as `ℚ`;
Python's `random` primitives are modelled by an explicit stream of
natural numbers (`ℕ → ℕ`); code that can raise is modelled with
`Option`/`Except`.
-/

namespace SSQ

/-- A historical draw: six red values and one blue value
(`models/lottery_history.py` rows, as consumed by the compute models). -/
structure Draw where
  reds : List ℤ
  blue : ℤ
  deriving Repr, DecidableEq

/-- The constraint-related parameters shared by the `_check_constraints`
implementations (`random_model.py`, `bayesian_model.py` defaults). -/
structure ConstraintParams where
  min_odd_count : ℤ
  max_odd_count : ℤ
  min_sum : ℤ
  max_sum : ℤ
  max_consecutive : ℕ
  deriving Repr, DecidableEq

/-- Default constraint parameters (`random_model.py` lines 41-45,
identical in `bayesian_model.py`). -/
def defaultConstraints : ConstraintParams :=
  { min_odd_count := 2, max_odd_count := 4
    min_sum := 70, max_sum := 140, max_consecutive := 2 }

/-- `sum(1 for x in reds if x % 2 == 1)` — Python `%` on a positive
modulus agrees with `Int.emod`. -/
def oddCount (reds : List ℤ) : ℕ :=
  (reds.filter (fun x => x % 2 == 1)).length

/-- The consecutive-count loop body of `_check_constraints`
(`random_model.py` lines 73-78): walk the list, add 1 for each adjacent
pair differing by exactly 1, return `false` as soon as the running count
exceeds `maxC`.  The counter is never reset on a break. -/
def consLoop (maxC : ℕ) : List ℤ → ℤ → ℕ → Bool
  | [], _, _ => true
  | x :: xs, prev, acc =>
    if x - prev == 1 then
      if acc + 1 > maxC then false else consLoop maxC xs x (acc + 1)
    else consLoop maxC xs x acc

/-- The consecutive-run rule of `_check_constraints`, starting from the
head of the list with count 0. -/
def checkConsecutive (maxC : ℕ) (reds : List ℤ) : Bool :=
  match reds with
  | [] => true
  | x :: xs => consLoop maxC xs x 0

/-- `RandomLotteryModel._check_constraints` (`random_model.py` lines
60-80): length, odd-count bounds, sum bounds, consecutive rule. -/
def checkConstraintsRandom (p : ConstraintParams) (reds : List ℤ) : Bool :=
  if reds.length != 6 then false
  else if (oddCount reds : ℤ) < p.min_odd_count || (oddCount reds : ℤ) > p.max_odd_count then false
  else if reds.sum < p.min_sum || reds.sum > p.max_sum then false
  else checkConsecutive p.max_consecutive reds

/-- Zone occupancy counts used by `BayesianModel._check_constraints`. -/
def zoneCounts (reds : List ℤ) : ℕ × ℕ × ℕ :=
  ((reds.filter (fun x => x ≤ 11)).length,
   (reds.filter (fun x => 12 ≤ x ∧ x ≤ 22)).length,
   (reds.filter (fun x => 23 ≤ x)).length)

/-- `BayesianModel._check_constraints` (`bayesian_model.py` lines
110-136): length, odd-count bounds, zone occupancy, sum bounds,
consecutive rule. -/
def checkConstraintsBayes (p : ConstraintParams) (reds : List ℤ) : Bool :=
  if reds.length != 6 then false
  else if (oddCount reds : ℤ) < p.min_odd_count || (oddCount reds : ℤ) > p.max_odd_count then false
  else if (zoneCounts reds).1 = 0 || (zoneCounts reds).2.1 = 0 || (zoneCounts reds).2.2 = 0 then false
  else if reds.sum < p.min_sum || reds.sum > p.max_sum then false
  else checkConsecutive p.max_consecutive reds

/-- Total number of adjacent pairs `(x, x+1)` in the list, with no reset
on a break: the quantity the consecutive rule actually bounds. -/
def adjPairs : List ℤ → ℕ
  | [] => 0
  | [_] => 0
  | x :: y :: t => (if y - x = 1 then 1 else 0) + adjPairs (y :: t)

theorem consLoop_eq (maxC : ℕ) :
    ∀ (xs : List ℤ) (prev : ℤ) (acc : ℕ), acc ≤ maxC →
      consLoop maxC xs prev acc = decide (acc + adjPairs (prev :: xs) ≤ maxC) := by
  intro xs
  induction xs with
  | nil =>
    intro prev acc hacc
    simp [consLoop, adjPairs, hacc]
  | cons x t ih =>
    intro prev acc hacc
    have hadj : adjPairs (prev :: x :: t) =
        (if x - prev = 1 then 1 else 0) + adjPairs (x :: t) := rfl
    by_cases hdiff : x - prev = 1
    · by_cases hover : acc + 1 > maxC
      · have hna : ¬ (acc + adjPairs (prev :: x :: t) ≤ maxC) := by
          rw [hadj, if_pos hdiff]; omega
        simp [consLoop, hdiff, hover, hna]
      · have hacc' : acc + 1 ≤ maxC := by omega
        rw [show consLoop maxC (x :: t) prev acc = consLoop maxC t x (acc + 1) by
          simp [consLoop, hdiff, hover]]
        rw [ih x (acc + 1) hacc', hadj, if_pos hdiff]
        simp only [decide_eq_decide]
        omega
    · rw [show consLoop maxC (x :: t) prev acc = consLoop maxC t x acc by
        simp [consLoop, hdiff]]
      rw [ih x acc hacc, hadj, if_neg hdiff, zero_add]

theorem checkConsecutive_eq (maxC : ℕ) (reds : List ℤ) :
    checkConsecutive maxC reds = decide (adjPairs reds ≤ maxC) := by
  cases reds with
  | nil => simp [checkConsecutive, adjPairs]
  | cons x xs =>
    simpa [checkConsecutive] using consLoop_eq maxC xs x 0 (Nat.zero_le _)

theorem checkConstraintsRandom_iff (p : ConstraintParams) (reds : List ℤ) :
    checkConstraintsRandom p reds = true ↔
      (reds.length = 6 ∧
       p.min_odd_count ≤ (oddCount reds : ℤ) ∧ (oddCount reds : ℤ) ≤ p.max_odd_count ∧
       p.min_sum ≤ reds.sum ∧ reds.sum ≤ p.max_sum ∧
       adjPairs reds ≤ p.max_consecutive) := by
  unfold checkConstraintsRandom
  rw [checkConsecutive_eq]
  split_ifs with h1 h2 h3
  · simp only [Bool.false_eq_true, false_iff]
    intro h
    exact absurd h.1 (by simpa using h1)
  · simp only [Bool.false_eq_true, false_iff]
    intro h
    rcases h with ⟨_, ho1, ho2, _⟩
    simp only [decide_eq_true_eq, Bool.or_eq_true] at h2
    omega
  · simp only [Bool.false_eq_true, false_iff]
    intro h
    rcases h with ⟨_, _, _, hs1, hs2, _⟩
    simp only [decide_eq_true_eq, Bool.or_eq_true] at h3
    rcases h3 with h3 | h3 <;> omega
  · simp only [decide_eq_true_eq, Bool.or_eq_true, not_or, not_lt, bne_iff_ne, ne_eq,
      not_not] at h1 h2 h3
    simp only [decide_eq_true_eq]
    constructor
    · intro h
      exact ⟨h1, by omega, by omega, by omega, by omega, h⟩
    · intro h
      exact h.2.2.2.2.2

theorem checkConstraintsBayes_iff (p : ConstraintParams) (reds : List ℤ) :
    checkConstraintsBayes p reds = true ↔
      (reds.length = 6 ∧
       p.min_odd_count ≤ (oddCount reds : ℤ) ∧ (oddCount reds : ℤ) ≤ p.max_odd_count ∧
       0 < (zoneCounts reds).1 ∧ 0 < (zoneCounts reds).2.1 ∧ 0 < (zoneCounts reds).2.2 ∧
       p.min_sum ≤ reds.sum ∧ reds.sum ≤ p.max_sum ∧
       adjPairs reds ≤ p.max_consecutive) := by
  unfold checkConstraintsBayes
  rw [checkConsecutive_eq]
  split_ifs with h1 h2 hz h3
  · simp only [Bool.false_eq_true, false_iff]
    intro h
    exact absurd h.1 (by simpa using h1)
  · simp only [Bool.false_eq_true, false_iff]
    intro h
    rcases h with ⟨_, ho1, ho2, _⟩
    simp only [decide_eq_true_eq, Bool.or_eq_true] at h2
    omega
  · simp only [Bool.false_eq_true, false_iff]
    intro h
    rcases h with ⟨_, _, _, hz1, hz2, hz3, _⟩
    simp only [decide_eq_true_eq, Bool.or_eq_true] at hz
    rcases hz with (hz | hz) | hz <;> omega
  · simp only [Bool.false_eq_true, false_iff]
    intro h
    rcases h with ⟨_, _, _, _, _, _, hs1, hs2, _⟩
    simp only [decide_eq_true_eq, Bool.or_eq_true] at h3
    rcases h3 with h3 | h3 <;> omega
  · simp only [decide_eq_true_eq, Bool.or_eq_true, not_or, not_lt, bne_iff_ne, ne_eq,
      not_not] at h1 h2 hz h3
    simp only [decide_eq_true_eq]
    constructor
    · intro h
      exact ⟨h1, by omega, by omega, by omega, by omega, by omega, by omega, by omega, h⟩
    · intro h
      exact h.2.2.2.2.2.2.2.2

/-- C4 counterexample: under the default parameters, the combination
`[1,2,3,15,22,30]` contains a run of three consecutive values
(two adjacent pairs) and is ACCEPTED by both `_check_constraints`
implementations, contradicting the claim that a run of three is
rejected; and `[1,2,14,15,27,28]`, whose longest run is a single
adjacent pair but which has three adjacent pairs in total, is REJECTED,
contradicting the claim that acceptance depends only on the longest
run. -/
theorem C4_counterexample :
    checkConstraintsRandom defaultConstraints [1, 2, 3, 15, 22, 30] = true ∧
    checkConstraintsBayes defaultConstraints [1, 2, 3, 15, 22, 30] = true ∧
    adjPairs [1, 2, 3, 15, 22, 30] = 2 ∧
    checkConstraintsRandom defaultConstraints [1, 2, 14, 15, 27, 28] = false ∧
    adjPairs [1, 2, 14, 15, 27, 28] = 3 := by
  refine ⟨by decide, by decide, by decide, by decide, by decide⟩

/-- C4 (amended): the constraint check counts the TOTAL number of
adjacent pairs `(x, x+1)` over the whole combination, with no reset at a
break, and accepts (given the other rules pass) iff that total is at
most `max_consecutive`; in particular under the default
`max_consecutive = 2` one adjacent pair is accepted, a run of three
consecutive values (two pairs) is also accepted, and three adjacent
pairs — whether one run of four or separate runs — are rejected. -/
theorem C4_consecutive_total_pairs :
    (∀ (p : ConstraintParams) (reds : List ℤ),
      checkConstraintsRandom p reds = true ↔
        (reds.length = 6 ∧
         p.min_odd_count ≤ (oddCount reds : ℤ) ∧ (oddCount reds : ℤ) ≤ p.max_odd_count ∧
         p.min_sum ≤ reds.sum ∧ reds.sum ≤ p.max_sum ∧
         adjPairs reds ≤ p.max_consecutive)) ∧
    (∀ (p : ConstraintParams) (reds : List ℤ),
      checkConstraintsBayes p reds = true ↔
        (reds.length = 6 ∧
         p.min_odd_count ≤ (oddCount reds : ℤ) ∧ (oddCount reds : ℤ) ≤ p.max_odd_count ∧
         0 < (zoneCounts reds).1 ∧ 0 < (zoneCounts reds).2.1 ∧ 0 < (zoneCounts reds).2.2 ∧
         p.min_sum ≤ reds.sum ∧ reds.sum ≤ p.max_sum ∧
         adjPairs reds ≤ p.max_consecutive)) ∧
    checkConstraintsRandom defaultConstraints [1, 2, 15, 20, 25, 30] = true ∧
    checkConstraintsRandom defaultConstraints [1, 2, 3, 15, 22, 30] = true ∧
    checkConstraintsRandom defaultConstraints [5, 6, 7, 8, 20, 31] = false ∧
    checkConstraintsRandom defaultConstraints [1, 2, 14, 15, 27, 28] = false :=
  ⟨checkConstraintsRandom_iff, checkConstraintsBayes_iff,
   by decide, by decide, by decide, by decide⟩

/-! ## Bayesian model: Dirichlet posterior (`bayesian_model.py` lines 77-94) -/

/-- Python's `l[-w:]` slice (the history window).  `-0` slices the whole
list. -/
def pySliceLast {α : Type} (w : ℕ) (l : List α) : List α :=
  if w = 0 then l else l.drop (l.length - w)

/-- Parameters of `BayesianModel._build_red_posterior`. -/
structure BayesParams where
  prior_alpha : ℚ
  likelihood_weight : ℚ
  history_window : ℕ
  deriving Repr, DecidableEq

/-- Total number of occurrences of the value `r` in the reds of a list
of draws (the `counts[r-1] += 1` accumulation, for `1 ≤ r ≤ 33`). -/
def occCount (w : List Draw) (r : ℤ) : ℕ :=
  (w.map (fun d => (d.reds.filter (fun x => x == r)).length)).sum

/-- `_build_red_posterior`: `posterior = alpha + counts * likelihood_weight`
at the cell of value `r ∈ [1, 33]`. -/
def redPosterior (p : BayesParams) (history : List Draw) (r : ℤ) : ℚ :=
  p.prior_alpha + (occCount (pySliceLast p.history_window history) r : ℚ) * p.likelihood_weight

/-- C8: with zero historical occurrences of every red number the
Dirichlet posterior equals the prior exactly, and for
`likelihood_weight > 0` the posterior cell of a number grows strictly
with that number's occurrence count in the window. -/
theorem C8_bayesian_posterior :
    (∀ (p : BayesParams) (history : List Draw),
      (∀ r : ℤ, 1 ≤ r → r ≤ 33 → occCount (pySliceLast p.history_window history) r = 0) →
      ∀ r : ℤ, 1 ≤ r → r ≤ 33 → redPosterior p history r = p.prior_alpha) ∧
    (∀ (p : BayesParams) (h₁ h₂ : List Draw) (r : ℤ),
      0 < p.likelihood_weight →
      occCount (pySliceLast p.history_window h₁) r <
        occCount (pySliceLast p.history_window h₂) r →
      redPosterior p h₁ r < redPosterior p h₂ r) := by
  constructor
  · intro p history hzero r hr1 hr2
    unfold redPosterior
    rw [hzero r hr1 hr2]
    simp
  · intro p h₁ h₂ r hw hlt
    unfold redPosterior
    have : (occCount (pySliceLast p.history_window h₁) r : ℚ) <
        (occCount (pySliceLast p.history_window h₂) r : ℚ) := by
      exact_mod_cast hlt
    have := mul_lt_mul_of_pos_right this hw
    linarith

/-- Witness for C8 at a concrete model: the empty history gives
posterior `= prior_alpha = 1` everywhere, and adding a draw containing
the value 5 strictly increases the cell of 5. -/
theorem C8_bayesian_posterior_witness :
    redPosterior ⟨1, 1, 100⟩ [] 5 = 1 ∧
    redPosterior ⟨1, 1, 100⟩ [] 5 <
      redPosterior ⟨1, 1, 100⟩ [⟨[5, 6, 7, 8, 9, 10], 3⟩] 5 := by
  constructor
  · exact C8_bayesian_posterior.1 ⟨1, 1, 100⟩ [] (by decide) 5 (by decide) (by decide)
  · exact C8_bayesian_posterior.2 ⟨1, 1, 100⟩ [] [⟨[5, 6, 7, 8, 9, 10], 3⟩] 5
      (by norm_num) (by decide)

/-! ## Genetic models: crossover and differential-evolution mutation
(`genetic_model.py` lines 139-143, `markov_model.py` lines 192-205) -/

/-- Python's `sorted(l)` (ascending). -/
def pySorted (l : List ℤ) : List ℤ :=
  List.insertionSort (· ≤ ·) l

/-- `sorted(set(l))`: the distinct values of `l` in ascending order. -/
def sortedSet (l : List ℤ) : List ℤ :=
  pySorted l.dedup

/-- `_crossover` (identical in both genetic models): single-point cut at
`point`, concatenation, and `sorted(set(...))` — deduplication with NO
length repair. -/
def gaCrossover (p1 p2 : List ℤ) (point : ℕ) : List ℤ × List ℤ :=
  (sortedSet (p1.take point ++ p2.drop point),
   sortedSet (p2.take point ++ p1.drop point))

/-- Python `int()` truncation toward zero on a rational. -/
def pyInt (x : ℚ) : ℤ :=
  if 0 ≤ x then ⌊x⌋ else ⌈x⌉

/-- `max(1, min(33, val))` from `_differential_mutation`. -/
def clamp133 (v : ℤ) : ℤ :=
  max 1 (min 33 v)

/-- `GeneticModel._differential_mutation` (`markov_model.py` lines
198-205) applied to three population members `a`, `b`, `c`:
`mutant[i] = clamp(int(a[i] + scale * (b[i] - c[i])), 1, 33)`, then
sorted.  The clamp keeps values in `[1, 33]` but does not keep them
distinct. -/
def deMutation (a b c : List ℤ) (scale : ℚ) : List ℤ :=
  pySorted ((List.range 6).map (fun i =>
    clamp133 (pyInt ((a.getD i 0 : ℚ) + scale * ((b.getD i 0 : ℚ) - (c.getD i 0 : ℚ))))))

/-- C1: the claimed invariant (every generated `reds` is 6 distinct
values) fails in the code.  `_crossover` on the 6-element parents
`[7,8,9,10,11,12]` and `[1,2,3,7,8,9]` with cut point 3 yields the
3-element child `[7,8,9]` (the `set` deduplication shrinks the
individual and nothing repairs it), and `_differential_mutation` with
the default `de_scale = 0.6` on members `[1..6]`, `[1..6]`,
`[28..33]` yields `[1,1,1,1,1,1]` — six duplicated values. -/
theorem C1_six_distinct_reds_violated :
    (gaCrossover [7, 8, 9, 10, 11, 12] [1, 2, 3, 7, 8, 9] 3).1 = [7, 8, 9] ∧
    (gaCrossover [7, 8, 9, 10, 11, 12] [1, 2, 3, 7, 8, 9] 3).1.length ≠ 6 ∧
    deMutation [1, 2, 3, 4, 5, 6] [1, 2, 3, 4, 5, 6] [28, 29, 30, 31, 32, 33] (3 / 5)
      = [1, 1, 1, 1, 1, 1] ∧
    ¬ (deMutation [1, 2, 3, 4, 5, 6] [1, 2, 3, 4, 5, 6] [28, 29, 30, 31, 32, 33]
        (3 / 5)).Nodup := by
  have hneg : ∀ x : ℚ, x < 0 → clamp133 (pyInt x) = 1 := by
    intro x hx
    rw [pyInt, if_neg (not_le.mpr hx)]
    have hc : ⌈x⌉ ≤ 0 := Int.ceil_le.mpr (by exact_mod_cast hx.le)
    unfold clamp133
    omega
  have hmap : deMutation [1, 2, 3, 4, 5, 6] [1, 2, 3, 4, 5, 6] [28, 29, 30, 31, 32, 33] (3 / 5)
      = [1, 1, 1, 1, 1, 1] := by
    rw [deMutation, show List.range 6 = [0, 1, 2, 3, 4, 5] from rfl]
    simp only [List.map, List.getD]
    rw [hneg _ (by norm_num), hneg _ (by norm_num), hneg _ (by norm_num),
        hneg _ (by norm_num), hneg _ (by norm_num), hneg _ (by norm_num)]
    decide
  refine ⟨by decide, by decide, hmap, by rw [hmap]; decide⟩

/-! ## Random baseline model (`random_model.py`)

Python's `random` primitives are driven by an abstract stream
`f : ℕ → ℕ` of drawn values; structural validity of the output holds
for every stream.  The `extra_info` metadata map is not modelled. -/

/-- `random.randint(a, b)` driven by the stream cell `f i`. -/
def pyRandint (a b : ℤ) (f : ℕ → ℕ) (i : ℕ) : ℤ :=
  a + (f i % (b - a + 1).toNat : ℕ)

/-- `random.sample(pool, k)` driven by stream cells `f i, f (i+1), …`:
pick an index into the remaining pool, remove that element, repeat. -/
def pySample (pool : List ℤ) (k : ℕ) (f : ℕ → ℕ) (i : ℕ) : List ℤ :=
  match k with
  | 0 => []
  | k' + 1 =>
    if pool.length = 0 then []
    else
      let idx := f i % pool.length
      pool.getD idx 0 :: pySample (pool.eraseIdx idx) k' f (i + 1)

theorem pySample_subset (k : ℕ) :
    ∀ (pool : List ℤ) (f : ℕ → ℕ) (i : ℕ), ∀ x ∈ pySample pool k f i, x ∈ pool := by
  induction k with
  | zero => intro pool f i x hx; simp [pySample] at hx
  | succ k ih =>
    intro pool f i x hx
    rw [pySample] at hx
    by_cases hp : pool.length = 0
    · simp [hp] at hx
    · rw [if_neg hp] at hx
      have hidx : f i % pool.length < pool.length := Nat.mod_lt _ (Nat.pos_of_ne_zero hp)
      rcases List.mem_cons.mp hx with h | h
      · subst h
        rw [List.getD_eq_getElem pool 0 hidx]
        exact List.getElem_mem hidx
      · exact (List.eraseIdx_sublist pool _).subset (ih _ f (i + 1) x h)

theorem pySample_length (k : ℕ) :
    ∀ (pool : List ℤ) (f : ℕ → ℕ) (i : ℕ), k ≤ pool.length →
      (pySample pool k f i).length = k := by
  induction k with
  | zero => intro pool f i _; simp [pySample]
  | succ k ih =>
    intro pool f i hk
    have hp : pool.length ≠ 0 := by omega
    rw [pySample, if_neg hp]
    have hidx : f i % pool.length < pool.length := Nat.mod_lt _ (Nat.pos_of_ne_zero hp)
    have herase : (pool.eraseIdx (f i % pool.length)).length = pool.length - 1 := by
      rw [List.length_eraseIdx]
      simp [hidx]
    simp only [List.length_cons]
    rw [ih _ f (i + 1) (by omega)]

theorem pySample_nodup (k : ℕ) :
    ∀ (pool : List ℤ) (f : ℕ → ℕ) (i : ℕ), pool.Nodup →
      (pySample pool k f i).Nodup := by
  induction k with
  | zero => intro pool f i _; simp [pySample]
  | succ k ih =>
    intro pool f i hnd
    rw [pySample]
    by_cases hp : pool.length = 0
    · simp [hp]
    · rw [if_neg hp]
      have hidx : f i % pool.length < pool.length := Nat.mod_lt _ (Nat.pos_of_ne_zero hp)
      refine List.nodup_cons.mpr ⟨?_, ih _ f (i + 1) ((List.eraseIdx_sublist pool _).nodup hnd)⟩
      intro hmem
      have hsub := pySample_subset k (pool.eraseIdx (f i % pool.length)) f (i + 1) _ hmem
      rw [List.getD_eq_getElem pool 0 hidx] at hsub
      rw [← List.Nodup.erase_getElem hnd _ hidx] at hsub
      rw [List.Nodup.mem_erase_iff hnd] at hsub
      exact hsub.1 rfl

/-- `list(range(1, 34))`. -/
def allReds : List ℤ := (List.range 33).map (fun n => (n : ℤ) + 1)

/-- `[x for x in all_reds if x % 2 == 1]`. -/
def oddReds : List ℤ := allReds.filter (fun x => x % 2 == 1)

/-- `[x for x in all_reds if x % 2 == 0]`. -/
def evenReds : List ℤ := allReds.filter (fun x => x % 2 == 0)

/-- Parameters of `RandomLotteryModel` (`random_model.py` lines 35-49). -/
structure RandomParams where
  prefer_odd_red : Bool
  prefer_odd_blue : Bool
  cp : ConstraintParams
  max_attempts : ℕ
  deriving Repr, DecidableEq

/-- The `default_params` of the random model. -/
def defaultRandomParams : RandomParams :=
  { prefer_odd_red := false, prefer_odd_blue := false
    cp := defaultConstraints, max_attempts := 50 }

/-- One attempt of the `generate` retry loop (`random_model.py` lines
94-105): either parity-biased sampling (3 or 4 odds plus evens) or a
plain 6-element sample, then an ascending sort. -/
def attemptReds (p : RandomParams) (f : ℕ → ℕ) (base : ℕ) : List ℤ :=
  if p.prefer_odd_red then
    let numOdd := 3 + f base % 2
    let so := pySample oddReds numOdd f (base + 1)
    let se := pySample evenReds (6 - numOdd) f (base + 1 + numOdd)
    pySorted (so ++ se)
  else
    pySorted (pySample allReds 6 f (base + 1))

/-- The bounded retry loop: return the first attempt that satisfies the
constraints, else the last attempt; `none` only when zero attempts were
allowed. -/
def randomTryLoop (p : RandomParams) (f : ℕ → ℕ) : ℕ → ℕ → Option (List ℤ)
  | 0, _ => none
  | k + 1, base =>
    let r := attemptReds p f base
    if checkConstraintsRandom p.cp r then some r
    else if k = 0 then some r
    else randomTryLoop p f k (base + 10)

/-- Blue-ball pick (`random_model.py` lines 117-121). -/
def randomBlue (prefer : Bool) (f : ℕ → ℕ) (i : ℕ) : ℤ :=
  if prefer then
    let oddBlues := ((List.range 16).map (fun n => (n : ℤ) + 1)).filter (fun b => b % 2 == 1)
    if oddBlues.isEmpty then pyRandint 1 16 f i
    else oddBlues.getD (f i % oddBlues.length) 0
  else pyRandint 1 16 f i

/-- `RandomLotteryModel.generate`: retry loop, unconstrained fallback
sample when no attempt ran, and the blue pick.  The model never reads
its history. -/
def randomGenerate (p : RandomParams) (f : ℕ → ℕ) : List ℤ × ℤ :=
  let reds := match randomTryLoop p f p.max_attempts 0 with
    | some r => r
    | none => pySorted (pySample allReds 6 f 997)
  (reds, randomBlue p.prefer_odd_blue f 499)

/-- Structural validity of a candidate: 6 distinct reds in `[1, 33]`
sorted ascending, blue in `[1, 16]`. -/
def ValidCandidate (reds : List ℤ) (blue : ℤ) : Prop :=
  reds.length = 6 ∧ reds.Sorted (· < ·) ∧ (∀ x ∈ reds, 1 ≤ x ∧ x ≤ 33) ∧
    1 ≤ blue ∧ blue ≤ 16

theorem pySorted_props (l : List ℤ) :
    (pySorted l).length = l.length ∧ (pySorted l).Sorted (· ≤ ·) ∧
      (∀ x, x ∈ pySorted l ↔ x ∈ l) ∧ (l.Nodup → (pySorted l).Nodup) := by
  have hperm := List.perm_insertionSort (· ≤ ·) l
  exact ⟨hperm.length_eq, List.sorted_insertionSort _ l,
    fun x => hperm.mem_iff, fun h => hperm.nodup_iff.mpr h⟩

theorem redsProps_of_sample (l : List ℤ)
    (hlen : l.length = 6) (hnd : l.Nodup) (hsub : ∀ x ∈ l, 1 ≤ x ∧ x ≤ 33) :
    (pySorted l).length = 6 ∧ (pySorted l).Sorted (· < ·) ∧
      ∀ x ∈ pySorted l, 1 ≤ x ∧ x ≤ 33 := by
  obtain ⟨h1, h2, h3, h4⟩ := pySorted_props l
  exact ⟨h1.trans hlen, h2.lt_of_le (h4 hnd), fun x hx => hsub x ((h3 x).mp hx)⟩

theorem allReds_facts :
    allReds.Nodup ∧ allReds.length = 33 ∧ (∀ x ∈ allReds, 1 ≤ x ∧ x ≤ 33) := by
  refine ⟨by decide, by decide, by decide⟩

theorem oddReds_facts :
    oddReds.Nodup ∧ oddReds.length = 17 ∧ (∀ x ∈ oddReds, (1 ≤ x ∧ x ≤ 33) ∧ x % 2 = 1) := by
  refine ⟨by decide, by decide, by decide⟩

theorem evenReds_facts :
    evenReds.Nodup ∧ evenReds.length = 16 ∧ (∀ x ∈ evenReds, (1 ≤ x ∧ x ≤ 33) ∧ x % 2 = 0) := by
  refine ⟨by decide, by decide, by decide⟩

theorem attemptReds_props (p : RandomParams) (f : ℕ → ℕ) (base : ℕ) :
    (attemptReds p f base).length = 6 ∧ (attemptReds p f base).Sorted (· < ·) ∧
      ∀ x ∈ attemptReds p f base, 1 ≤ x ∧ x ≤ 33 := by
  unfold attemptReds
  by_cases hpref : p.prefer_odd_red
  · simp only [hpref, if_true]
    set numOdd := 3 + f base % 2 with hnum
    have hnumOdd : numOdd ≤ 4 := by
      have : f base % 2 < 2 := Nat.mod_lt _ (by norm_num)
      omega
    have hso_len : (pySample oddReds numOdd f (base + 1)).length = numOdd :=
      pySample_length _ _ f _ (by rw [oddReds_facts.2.1]; omega)
    have hse_len : (pySample evenReds (6 - numOdd) f (base + 1 + numOdd)).length = 6 - numOdd :=
      pySample_length _ _ f _ (by rw [evenReds_facts.2.1]; omega)
    have hso_nd := pySample_nodup numOdd oddReds f (base + 1) oddReds_facts.1
    have hse_nd := pySample_nodup (6 - numOdd) evenReds f (base + 1 + numOdd) evenReds_facts.1
    have hso_sub := pySample_subset numOdd oddReds f (base + 1)
    have hse_sub := pySample_subset (6 - numOdd) evenReds f (base + 1 + numOdd)
    apply redsProps_of_sample
    · rw [List.length_append, hso_len, hse_len]; omega
    · refine List.Nodup.append hso_nd hse_nd ?_
      intro x hx hx'
      have h1 := (oddReds_facts.2.2 x (hso_sub x hx)).2
      have h2 := (evenReds_facts.2.2 x (hse_sub x hx')).2
      omega
    · intro x hx
      rcases List.mem_append.mp hx with h | h
      · exact (oddReds_facts.2.2 x (hso_sub x h)).1
      · exact (evenReds_facts.2.2 x (hse_sub x h)).1
  · simp only [hpref, if_false]
    apply redsProps_of_sample
    · exact pySample_length 6 allReds f _ (by rw [allReds_facts.2.1]; omega)
    · exact pySample_nodup 6 allReds f _ allReds_facts.1
    · exact fun x hx => allReds_facts.2.2 x (pySample_subset 6 allReds f _ x hx)

theorem randomTryLoop_props (p : RandomParams) (f : ℕ → ℕ) :
    ∀ (k base : ℕ) (r : List ℤ), randomTryLoop p f k base = some r →
      r.length = 6 ∧ r.Sorted (· < ·) ∧ ∀ x ∈ r, 1 ≤ x ∧ x ≤ 33 := by
  intro k
  induction k with
  | zero => intro base r h; simp [randomTryLoop] at h
  | succ k ih =>
    intro base r h
    rw [randomTryLoop] at h
    split_ifs at h with h1 h2
    · cases h; exact attemptReds_props p f base
    · cases h; exact attemptReds_props p f base
    · exact ih _ r h

/-- The random baseline always yields a structurally valid candidate,
for every parameter set and every randomness stream. -/
theorem randomGenerate_valid (p : RandomParams) (f : ℕ → ℕ) :
    ValidCandidate (randomGenerate p f).1 (randomGenerate p f).2 := by
  unfold randomGenerate ValidCandidate
  have hreds : ∀ r, (match randomTryLoop p f p.max_attempts 0 with
      | some r => r
      | none => pySorted (pySample allReds 6 f 997)) = r →
      r.length = 6 ∧ r.Sorted (· < ·) ∧ ∀ x ∈ r, 1 ≤ x ∧ x ≤ 33 := by
    intro r hr
    rcases hcase : randomTryLoop p f p.max_attempts 0 with _ | v
    · rw [hcase] at hr
      simp only at hr
      subst hr
      apply redsProps_of_sample
      · exact pySample_length 6 allReds f _ (by rw [allReds_facts.2.1]; omega)
      · exact pySample_nodup 6 allReds f _ allReds_facts.1
      · exact fun x hx => allReds_facts.2.2 x (pySample_subset 6 allReds f _ x hx)
    · rw [hcase] at hr
      simp only at hr
      subst hr
      exact randomTryLoop_props p f _ _ v hcase
  have hrand : 1 ≤ pyRandint 1 16 f 499 ∧ pyRandint 1 16 f 499 ≤ 16 := by
    unfold pyRandint
    have h16 : ((16 : ℤ) - 1 + 1).toNat = 16 := by decide
    rw [h16]
    have : f 499 % 16 < 16 := Nat.mod_lt _ (by norm_num)
    omega
  have hblue : 1 ≤ randomBlue p.prefer_odd_blue f 499 ∧
      randomBlue p.prefer_odd_blue f 499 ≤ 16 := by
    cases hpref : p.prefer_odd_blue with
    | false =>
      rw [randomBlue, if_neg (by simp)]
      exact hrand
    | true =>
      rw [randomBlue, if_pos rfl]
      have hne : ¬ ((((List.range 16).map (fun n => (n : ℤ) + 1)).filter
          (fun b => b % 2 == 1)).isEmpty = true) := by decide
      rw [if_neg hne]
      set ob := (((List.range 16).map (fun n => (n : ℤ) + 1)).filter (fun b => b % 2 == 1))
        with hob
      have hlen : ob.length = 8 := by rw [hob]; decide
      have hmem : ob.getD (f 499 % ob.length) 0 ∈ ob := by
        have hidx : f 499 % ob.length < ob.length := Nat.mod_lt _ (by rw [hlen]; norm_num)
        rw [List.getD_eq_getElem ob 0 hidx]
        exact List.getElem_mem hidx
      have hb : ∀ x ∈ ob, 1 ≤ x ∧ x ≤ 16 := by rw [hob]; decide
      exact hb _ hmem
  obtain ⟨h1, h2, h3⟩ := hreds _ rfl
  exact ⟨h1, h2, h3, hblue.1, hblue.2⟩

/-! ## Python values, the fusion engine (`models/fusion_engine.py`) and
the model manager (`compute/model_manager.py`) -/

/-- The fragment of Python's value universe that the fusion engine and
the manager manipulate.  Floats are `vnum`. -/
inductive PyVal where
  | vint (n : ℤ)
  | vnum (q : ℚ)
  | vbool (b : Bool)
  | vstr (s : String)
  | vlist (l : List PyVal)
  | vdict (entries : List (String × PyVal))

/-- `s * n` in Python: string repetition for an integer (or bool)
multiplier, `TypeError` otherwise. -/
def pyMulStr (s : String) (w : PyVal) : Option PyVal :=
  match w with
  | .vint n => some (.vstr (String.join (List.replicate n.toNat s)))
  | .vbool b => some (.vstr (if b then s else ""))
  | _ => none

/-- An explicit `mapM` over `Option`. -/
def optMapM {α β : Type} (g : α → Option β) : List α → Option (List β)
  | [] => some []
  | x :: xs => do
    let y ← g x
    let ys ← optMapM g xs
    pure (y :: ys)

/-- `FusionEngine._apply_weight` (`fusion_engine.py` lines 31-38):
`[r * weight for r in result]`.  `result` is the strategy's result
dict, and iterating a Python dict yields its KEYS, so each `r` is a
string. -/
def applyWeight (result : List (String × PyVal)) (weight : PyVal) : Option (List PyVal) :=
  optMapM (fun k => pyMulStr k weight) (result.map Prod.fst)

/-- Python `+` on the values reaching `sum`: numeric pairs add,
everything else is a `TypeError`. -/
def pyAdd (a b : PyVal) : Option PyVal :=
  match a, b with
  | .vint m, .vint n => some (.vint (m + n))
  | .vint m, .vnum q => some (.vnum ((m : ℚ) + q))
  | .vnum q, .vint n => some (.vnum (q + (n : ℚ)))
  | .vnum p, .vnum q => some (.vnum (p + q))
  | .vbool x, .vint n => some (.vint ((if x then 1 else 0) + n))
  | .vint m, .vbool y => some (.vint (m + (if y then 1 else 0)))
  | _, _ => none

/-- Python `sum(x)`: left fold of `+` starting from the int `0`. -/
def pySum (l : List PyVal) : Option PyVal :=
  l.foldlM pyAdd (.vint 0)

/-- `s / n` for the column average; non-numeric `s` is a `TypeError`. -/
def pyDivByLen (v : PyVal) (n : ℕ) : Option PyVal :=
  match v with
  | .vint m => some (.vnum ((m : ℚ) / (n : ℚ)))
  | .vnum q => some (.vnum (q / (n : ℚ)))
  | _ => none

/-- Length of the shortest member, for `zip(*results)`. -/
def minLen (ls : List (List PyVal)) : ℕ :=
  match ls with
  | [] => 0
  | l :: rest => rest.foldl (fun m x => Nat.min m x.length) l.length

/-- `zip(*results)`: the list of columns, truncated at the shortest
row. -/
def pyZipStar (ls : List (List PyVal)) : List (List PyVal) :=
  if ls.isEmpty then []
  else (List.range (minLen ls)).map (fun i => ls.map (fun l => l.getD i (.vint 0)))

/-- `FusionEngine._combine_results` (`fusion_engine.py` lines 40-48):
`[sum(x) / len(x) for x in zip(*results)]`. -/
def combineResults (results : List (List PyVal)) : Option PyVal := do
  let vals ← optMapM (fun col => do
      let s ← pySum col
      pyDivByLen s col.length) (pyZipStar results)
  pure (.vlist vals)

/-- A model successfully instantiated by the manager: its code, its
permission weight, and the dict its `generate()` would return (`none`
when `generate()` raises). -/
structure LoadedModel where
  code : String
  weight : PyVal
  genResult : Option (List (String × PyVal))

/-- `FusionEngine.generate` (`fusion_engine.py` lines 17-29): run every
model, weight each result, combine. -/
def fusionGenerate (models : List LoadedModel) : Option PyVal := do
  let weighted ← optMapM (fun m => do
      let d ← m.genResult
      applyWeight d m.weight) models
  combineResults weighted

/-- Python dict item assignment `d[k] = v`. -/
def dictSet (d : List (String × PyVal)) (k : String) (v : PyVal) : List (String × PyVal) :=
  if d.any (fun e => e.1 == k) then d.map (fun e => if e.1 == k then (k, v) else e)
  else d ++ [(k, v)]

/-- `result[k] = v` in Python: succeeds on a dict, raises `TypeError`
on any other value (in particular on the list `_combine_results`
returns). -/
def pySetItem (v : PyVal) (k : String) (x : PyVal) : Option PyVal :=
  match v with
  | .vdict d => some (.vdict (dictSet d k x))
  | _ => none

/-- The fusion branch of `ModelManager.execute` (lines 104-110):
`result = fusion.generate()` followed by the tag assignment
`result["model_used"] = "fusion"`. -/
def fusedTagged (models : List LoadedModel) : Option PyVal := do
  let v ← fusionGenerate models
  pySetItem v "model_used" (.vstr "fusion")

/-- A permission row as consumed by the manager (`perm.model_code`,
`perm.weight`, `perm.params`; the permission store itself is an
external collaborator). -/
structure Permission where
  model_code : String
  weight : PyVal

/-- The outcome shape of `ModelManager.execute`: the random-baseline
dict, a single model's dict tagged with its code and weight, or a fused
value tagged with all contributing codes and weights. -/
inductive ExecOutcome where
  | randomResult (reds : List ℤ) (blue : ℤ)
  | singleResult (code : String) (weight : PyVal) (d : List (String × PyVal))
  | fusionResult (v : PyVal) (codes : List String) (weights : List PyVal)

/-- `ModelManager.execute` (`model_manager.py` lines 31-113): the
normal-role, empty-history, no-permission and no-valid-model paths all
return `RandomLotteryModel().generate()`; a single resolved model
returns its result tagged with code and weight (falling back to random
if its `generate` raises); two or more resolved models go through the
fusion engine, whose failure is caught and also falls back to random.
`instantiate` abstracts registry lookup plus construction; rows for
which it returns `none` are skipped, as in the `try/except` loop. -/
def managerExecute (role : String) (history : List Draw) (perms : List Permission)
    (instantiate : Permission → Option LoadedModel) (f : ℕ → ℕ) : ExecOutcome :=
  let rnd := fun (_ : Unit) =>
    ExecOutcome.randomResult (randomGenerate defaultRandomParams f).1
      (randomGenerate defaultRandomParams f).2
  if role = "normal" then rnd ()
  else if history.isEmpty then rnd ()
  else if perms.isEmpty then rnd ()
  else
    match perms.filterMap instantiate with
    | [] => rnd ()
    | [m] =>
      match m.genResult with
      | some d => .singleResult m.code m.weight d
      | none => rnd ()
    | m₁ :: m₂ :: rest =>
      match fusedTagged (m₁ :: m₂ :: rest) with
      | some v => .fusionResult v ((m₁ :: m₂ :: rest).map (·.code))
          ((m₁ :: m₂ :: rest).map (·.weight))
      | none => rnd ()

theorem combineResults_isList (results : List (List PyVal)) (v : PyVal)
    (h : combineResults results = some v) : ∃ l, v = .vlist l := by
  unfold combineResults at h
  rcases hm : optMapM (fun col => do
      let s ← pySum col
      pyDivByLen s col.length) (pyZipStar results) with _ | vals
  · rw [hm] at h; simp [Option.bind] at h
  · rw [hm] at h
    simp only [Option.bind_eq_bind, Option.some_bind] at h
    exact ⟨vals, (Option.some_inj.mp h).symm⟩

/-- The fused-and-tagged path can never succeed: the combine step
produces a Python list, and item assignment on a list raises. -/
theorem fusedTagged_eq_none (models : List LoadedModel) :
    fusedTagged models = none := by
  unfold fusedTagged
  rcases hf : fusionGenerate models with _ | v
  · simp
  · have hv : ∃ l, v = .vlist l := by
      unfold fusionGenerate at hf
      rcases hw : optMapM (fun m => do
          let d ← m.genResult
          applyWeight d m.weight) models with _ | ws
      · rw [hw] at hf; simp [Option.bind] at hf
      · rw [hw] at hf
        simp only [Option.bind_eq_bind, Option.some_bind] at hf
        exact combineResults_isList ws v hf
    obtain ⟨l, rfl⟩ := hv
    simp [Option.bind, pySetItem]

theorem managerExecute_floor (role : String) (history : List Draw) (perms : List Permission)
    (instantiate : Permission → Option LoadedModel) (f : ℕ → ℕ)
    (h : role = "normal" ∨ history = [] ∨ perms = [] ∨ perms.filterMap instantiate = []) :
    managerExecute role history perms instantiate f =
      .randomResult (randomGenerate defaultRandomParams f).1
        (randomGenerate defaultRandomParams f).2 := by
  unfold managerExecute
  rcases h with h | h | h | h
  · rw [if_pos h]
  · subst h
    by_cases h1 : role = "normal"
    · rw [if_pos h1]
    · simp [h1]
  · subst h
    by_cases h1 : role = "normal"
    · rw [if_pos h1]
    · by_cases h2 : history.isEmpty = true
      · simp [h1, h2]
      · simp [h1, h2]
  · by_cases h1 : role = "normal"
    · rw [if_pos h1]
    · by_cases h2 : history.isEmpty = true
      · simp [h1, h2]
      · by_cases h3 : perms.isEmpty = true
        · simp [h1, h2, h3]
        · simp [h1, h2, h3, h]

theorem managerExecute_multi (role : String) (history : List Draw) (perms : List Permission)
    (instantiate : Permission → Option LoadedModel) (f : ℕ → ℕ)
    (m₁ m₂ : LoadedModel) (rest : List LoadedModel)
    (h1 : role ≠ "normal") (h2 : history ≠ []) (h3 : perms ≠ [])
    (hfm : perms.filterMap instantiate = m₁ :: m₂ :: rest) :
    managerExecute role history perms instantiate f =
      .randomResult (randomGenerate defaultRandomParams f).1
        (randomGenerate defaultRandomParams f).2 := by
  unfold managerExecute
  rw [if_neg h1, if_neg (by simpa [List.isEmpty_iff] using h2),
      if_neg (by simpa [List.isEmpty_iff] using h3)]
  simp [hfm, fusedTagged_eq_none]

/-- C3 counterexample: two resolved strategies with perfectly ordinary
result dicts (so the claim says the manager must return the fused,
tagged weighted average).  The fusion engine iterates each result dict
— yielding its string keys — so summing the weighted "results" raises
`TypeError` inside `_combine_results`, the manager catches it, and the
caller receives the plain random-baseline result with no fusion tags. -/
theorem C3_fusion_counterexample :
    fusionGenerate
      [⟨"bayesian_model", .vint 1, some [("reds", .vlist [.vint 1, .vint 5, .vint 9, .vint 14, .vint 22, .vint 30]), ("blue", .vint 5), ("strategy", .vstr "b"), ("extra_info", .vdict [])]⟩,
       ⟨"genetic_model", .vint 2, some [("reds", .vlist [.vint 2, .vint 6, .vint 10, .vint 15, .vint 23, .vint 31]), ("blue", .vint 7), ("strategy", .vstr "g"), ("extra_info", .vdict [])]⟩] = none ∧
    managerExecute "vip" [⟨[1, 2, 3, 4, 5, 6], 7⟩]
      [⟨"bayesian_model", .vint 1⟩, ⟨"genetic_model", .vint 2⟩]
      (fun p => if p.model_code = "bayesian_model" then
          some ⟨"bayesian_model", .vint 1, some [("reds", .vlist [.vint 1, .vint 5, .vint 9, .vint 14, .vint 22, .vint 30]), ("blue", .vint 5), ("strategy", .vstr "b"), ("extra_info", .vdict [])]⟩
        else
          some ⟨"genetic_model", .vint 2, some [("reds", .vlist [.vint 2, .vint 6, .vint 10, .vint 15, .vint 23, .vint 31]), ("blue", .vint 7), ("strategy", .vstr "g"), ("extra_info", .vdict [])]⟩)
      (fun _ => 0) =
      .randomResult (randomGenerate defaultRandomParams (fun _ => 0)).1
        (randomGenerate defaultRandomParams (fun _ => 0)).2 := by
  constructor
  · rfl
  · exact managerExecute_multi _ _ _ _ _ _ _ _ (by simp) (by simp) (by simp) rfl

/-- C3 (amended): when more than one strategy resolves, the manager
does route their outputs into the fusion engine, but the engine's
elementwise weighted average is applied to the strategies' result
DICTS: iterating a dict yields its string keys, so weighting/summing
them (and then item-assigning the fusion tag onto the resulting list)
always raises `TypeError`; the manager catches the exception and
returns the random-baseline result, with no fusion tagging. -/
theorem C3_fusion_always_falls_back :
    (∀ models : List LoadedModel, fusedTagged models = none) ∧
    (∀ (role : String) (history : List Draw) (perms : List Permission)
       (instantiate : Permission → Option LoadedModel) (f : ℕ → ℕ)
       (m₁ m₂ : LoadedModel) (rest : List LoadedModel),
       role ≠ "normal" → history ≠ [] → perms ≠ [] →
       perms.filterMap instantiate = m₁ :: m₂ :: rest →
       managerExecute role history perms instantiate f =
         .randomResult (randomGenerate defaultRandomParams f).1
           (randomGenerate defaultRandomParams f).2) :=
  ⟨fusedTagged_eq_none,
   fun role history perms instantiate f m₁ m₂ rest h1 h2 h3 hfm =>
     managerExecute_multi role history perms instantiate f m₁ m₂ rest h1 h2 h3 hfm⟩

/-- Witness for the amended C3 claim at a concrete configuration. -/
theorem C3_fusion_always_falls_back_witness :
    fusedTagged [⟨"a", .vint 1, some [("reds", .vlist [])]⟩] = none ∧
    managerExecute "svip" [⟨[1, 2, 3, 4, 5, 6], 7⟩]
      [⟨"a", .vint 1⟩, ⟨"b", .vint 2⟩]
      (fun p => some ⟨p.model_code, p.weight, some [("reds", .vlist [])]⟩)
      (fun _ => 1) =
      .randomResult (randomGenerate defaultRandomParams (fun _ => 1)).1
        (randomGenerate defaultRandomParams (fun _ => 1)).2 :=
  ⟨C3_fusion_always_falls_back.1 _,
   C3_fusion_always_falls_back.2 "svip" _ _ _ _ _ _ [] (by simp) (by simp) (by simp) rfl⟩

/-- C7: whenever zero strategies resolve — normal role, empty history,
no permissions, or every instantiation failed — the manager returns the
random baseline's result, and the random baseline (default parameters;
it never reads its history) returns a structurally valid candidate for
every randomness stream. -/
theorem C7_random_floor :
    (∀ (role : String) (history : List Draw) (perms : List Permission)
       (instantiate : Permission → Option LoadedModel) (f : ℕ → ℕ),
       role = "normal" ∨ history = [] ∨ perms = [] ∨ perms.filterMap instantiate = [] →
       managerExecute role history perms instantiate f =
         .randomResult (randomGenerate defaultRandomParams f).1
           (randomGenerate defaultRandomParams f).2) ∧
    (∀ f : ℕ → ℕ,
       ValidCandidate (randomGenerate defaultRandomParams f).1
         (randomGenerate defaultRandomParams f).2) :=
  ⟨managerExecute_floor, fun f => randomGenerate_valid defaultRandomParams f⟩

/-- Witness for C7: the no-permission path with a concrete stream. -/
theorem C7_random_floor_witness :
    managerExecute "vip" [⟨[1, 2, 3, 4, 5, 6], 7⟩] []
      (fun _ => none) (fun _ => 3) =
      .randomResult (randomGenerate defaultRandomParams (fun _ => 3)).1
        (randomGenerate defaultRandomParams (fun _ => 3)).2 ∧
    ValidCandidate (randomGenerate defaultRandomParams (fun _ => 3)).1
      (randomGenerate defaultRandomParams (fun _ => 3)).2 :=
  ⟨C7_random_floor.1 "vip" _ [] _ _ (Or.inr (Or.inr (Or.inl rfl))),
   C7_random_floor.2 (fun _ => 3)⟩

/-! ## Odd/even balance model (`odd_even_balance_model.py`) -/

/-- `OddEvenBalanceModel.default_params` (lines 36-52), in source
order.  Note: no `min_odd_count` / `max_odd_count` entries. -/
def oddEvenDefaults : List (String × PyVal) :=
  [("target_odd_count", .vint 3), ("odd_tolerance", .vint 1),
   ("use_history_trend", .vbool true), ("history_window", .vint 50),
   ("prefer_odd_blue", .vbool false),
   ("min_sum", .vint 70), ("max_sum", .vint 140), ("max_consecutive", .vint 2)]

/-- `self.params[k]` on `{**default_params, **(params or {})}`:
overrides win; a missing key is a `KeyError`. -/
def paramsGet (defaults overrides : List (String × PyVal)) (k : String) : Option PyVal :=
  match overrides.lookup k with
  | some v => some v
  | none => defaults.lookup k

/-- Read an int-valued parameter. -/
def paramInt (defaults overrides : List (String × PyVal)) (k : String) : Option ℤ :=
  match paramsGet defaults overrides k with
  | some (.vint n) => some n
  | _ => none

/-- Read a bool-valued parameter. -/
def paramBool (defaults overrides : List (String × PyVal)) (k : String) : Option Bool :=
  match paramsGet defaults overrides k with
  | some (.vbool b) => some b
  | _ => none

/-- `_get_historical_odd_preference` (lines 66-79): mean odd-ratio over
the window, `0.5` when the history is empty, the trend is disabled, or
no draw in the window has 6 reds. -/
def oddPreference (history : List Draw) (uht : Bool) (window : ℕ) : ℚ :=
  if history.isEmpty || !uht then 1 / 2
  else
    let ratios := ((pySliceLast window history).filter (fun d => d.reds.length = 6)).map
      (fun d => (oddCount d.reds : ℚ) / 6)
    if ratios.isEmpty then 1 / 2 else ratios.sum / (ratios.length : ℚ)

/-- Python `round()` — round half to even. -/
def pyRound (x : ℚ) : ℤ :=
  if x - ⌊x⌋ < 1 / 2 then ⌊x⌋
  else if 1 / 2 < x - ⌊x⌋ then ⌊x⌋ + 1
  else if ⌊x⌋ % 2 = 0 then ⌊x⌋ else ⌊x⌋ + 1

/-- `OddEvenBalanceModel._check_constraints` (lines 82-102): length,
`|odd_count − target| ≤ tolerance`, sum bounds, consecutive rule. -/
def checkConstraintsOddEven (tgt tol minSum maxSum : ℤ) (maxC : ℕ) (reds : List ℤ) : Bool :=
  if reds.length != 6 then false
  else if |(oddCount reds : ℤ) - tgt| > tol then false
  else if reds.sum < minSum || reds.sum > maxSum then false
  else checkConsecutive maxC reds

/-- The 20-round mutate-and-retry loop of `generate` (lines 138-147):
replace a random slot by a random number not already present (the
`while new_num in reds` redraw is modelled as a draw from the
complement, its observable effect), then re-sort. -/
def oeRetry (check : List ℤ → Bool) (f : ℕ → ℕ) : ℕ → ℕ → List ℤ → List ℤ
  | 0, _, reds => reds
  | k + 1, base, reds =>
    if check reds then reds
    else
      let idx := f base % 6
      let pool := allReds.filter (fun x => !(reds.contains x))
      let newNum := pool.getD (f (base + 1) % pool.length) 0
      oeRetry check f k (base + 2) (pySorted (reds.set idx newNum))

/-- `OddEvenBalanceModel.generate` (lines 105-167).  Parameter reads go
through the merged dict and are fallible (`KeyError ↦ none`); the reads
in `__init__` come first, then the empty-history fallback to the random
model, then the trend computation, then — at line 124 — the reads of
`min_odd_count` and `max_odd_count`, then sampling, the retry loop and
the blue pick. -/
def oddEvenGenerate (history : List Draw) (overrides : List (String × PyVal)) (f : ℕ → ℕ) :
    Option (List ℤ × ℤ) := do
  let tgt ← paramInt oddEvenDefaults overrides "target_odd_count"
  let tol ← paramInt oddEvenDefaults overrides "odd_tolerance"
  let uht ← paramBool oddEvenDefaults overrides "use_history_trend"
  let hw ← paramInt oddEvenDefaults overrides "history_window"
  let pob ← paramBool oddEvenDefaults overrides "prefer_odd_blue"
  if history.isEmpty then
    pure (randomGenerate defaultRandomParams f)
  else
    let trend := oddPreference history uht hw.toNat
    let adjusted := pyRound ((tgt : ℚ) + (trend - 1 / 2) * 2)
    let minOdd ← paramInt oddEvenDefaults overrides "min_odd_count"
    let maxOdd ← paramInt oddEvenDefaults overrides "max_odd_count"
    let numOdd := (max minOdd (min maxOdd adjusted)).toNat
    let so := pySample oddReds (min numOdd oddReds.length) f 1
    let se := pySample evenReds (min (6 - so.length) evenReds.length) f 30
    let reds0 := pySorted (so ++ se)
    let minSum ← paramInt oddEvenDefaults overrides "min_sum"
    let maxSum ← paramInt oddEvenDefaults overrides "max_sum"
    let maxC ← paramInt oddEvenDefaults overrides "max_consecutive"
    let reds := oeRetry (checkConstraintsOddEven tgt tol minSum maxSum maxC.toNat) f 20 60 reds0
    pure (reds, randomBlue pob f 499)

/-- C2: parameter merging is NOT total for the odd/even-balance model.
Its `default_params` contain no `min_odd_count`/`max_odd_count`, yet
`generate` reads both (line 124), so with only the model's own defaults
every call on a non-empty history dies with a `KeyError` — for every
override-free construction, every history and every randomness
stream. -/
theorem C2_odd_even_missing_key (history : List Draw) (f : ℕ → ℕ)
    (h : history ≠ []) :
    oddEvenGenerate history [] f = none ∧
    paramsGet oddEvenDefaults [] "min_odd_count" = none := by
  have hne : history.isEmpty = false := by
    cases history with
    | nil => exact absurd rfl h
    | cons a t => rfl
  constructor
  · simp [oddEvenGenerate, paramInt, paramBool, paramsGet, oddEvenDefaults,
      List.lookup, hne]
  · rfl

/-- Witness for C2 at a concrete one-draw history. -/
theorem C2_odd_even_missing_key_witness :
    oddEvenGenerate [⟨[1, 2, 3, 4, 5, 6], 7⟩] [] (fun _ => 0) = none ∧
    paramsGet oddEvenDefaults [] "min_odd_count" = none :=
  C2_odd_even_missing_key [⟨[1, 2, 3, 4, 5, 6], 7⟩] (fun _ => 0) (by simp)

/-! ## Single-objective genetic model: fitness and selection
(`genetic_model.py` lines 87-167) -/

/-- The parameters `_fitness` reads (weights as exact rationals). -/
structure GAParams where
  history_match_weight : ℚ
  trend_weight : ℚ
  odd_even_weight : ℚ
  zone_weight : ℚ
  sum_weight : ℚ
  min_sum : ℤ
  max_sum : ℤ
  history_window : ℕ

/-- The genetic model's `default_params` relevant to `_fitness`. -/
def defaultGAParams : GAParams :=
  { history_match_weight := 9 / 20, trend_weight := 1 / 4, odd_even_weight := 3 / 20
    zone_weight := 1 / 10, sum_weight := 1 / 20
    min_sum := 70, max_sum := 140, history_window := 80 }

/-- Terms 2-5 of `_fitness` (lines 108-134): odd/even closeness to 3:3,
zone coverage, sum-range closeness, minus `0.25` per adjacent pair
(the `consecutive` loop, again with no reset). -/
def gaZoneOddSumTail (p : GAParams) (reds : List ℤ) : ℚ :=
  let oddScore : ℚ := 1 - |(oddCount reds : ℚ) - 3| / 3
  let z1 := (reds.filter (fun x => x ≤ 11)).length
  let z2 := (reds.filter (fun x => 12 ≤ x ∧ x ≤ 22)).length
  let z3 := (reds.filter (fun x => 23 ≤ x)).length
  let zoneScore : ℚ := ((min 1 z1 + min 1 z2 + min 1 z3 : ℕ) : ℚ)
  let total := reds.sum
  let sumScore : ℚ :=
    if p.min_sum ≤ total ∧ total ≤ p.max_sum then 1
    else max 0 (1 - ((min |total - p.min_sum| |total - p.max_sum| : ℤ) : ℚ) / 50)
  p.odd_even_weight * oddScore + p.zone_weight * (zoneScore / 3)
    + p.sum_weight * sumScore - (adjPairs reds : ℚ) * (1 / 4)

/-- Term 1 of `_fitness` (lines 96-99): weighted overlap of `reds` with
the most recent draw of the window. -/
def gaHistTerm (p : GAParams) (history : List Draw) (reds : List ℤ) : ℚ :=
  let lastReds := ((pySliceLast p.history_window history).getLast?).elim
    ([] : List ℤ) (fun d => d.reds)
  p.history_match_weight * (((reds.dedup.filter (fun x => x ∈ lastReds)).length : ℚ) / 6)

/-- The trend term of `_fitness` (lines 101-106), defined when the
window has at least 4 draws (the code reads `recent[-4]`). -/
def gaTrendTerm (p : GAParams) (history : List Draw) (reds : List ℤ) : ℚ :=
  let recent := pySliceLast p.history_window history
  let avgLast : ℚ := (((pySliceLast 3 recent).map (fun d => d.reds.sum)).sum : ℚ) / 3
  let baseline : ℚ := ((recent.getD (recent.length - 4) ⟨[], 0⟩).reds.sum : ℚ)
  let trendMatch : ℚ :=
    if ((reds.sum : ℚ) - avgLast) * (avgLast - baseline) > 0 then 1 else 2 / 5
  p.trend_weight * trendMatch

/-- `_fitness` before the final clamp.  The guard in the source is
`len(recent) >= 3`, but the trend baseline is `recent[-4]`, so a window
of length exactly 3 raises `IndexError` (`none`); length `< 3` skips
the trend term, length `≥ 4` computes it. -/
def gaFitnessCore (p : GAParams) (history : List Draw) (reds : List ℤ) : Option ℚ :=
  if history.isEmpty then some (gaZoneOddSumTail p reds)
  else
    let n := (pySliceLast p.history_window history).length
    if n < 3 then some (gaHistTerm p history reds + gaZoneOddSumTail p reds)
    else if n = 3 then none
    else some (gaHistTerm p history reds + gaTrendTerm p history reds
      + gaZoneOddSumTail p reds)

/-- `_fitness` (line 136): `max(0.01, min(1.0, score))`. -/
def gaFitness (p : GAParams) (history : List Draw) (reds : List ℤ) : Option ℚ :=
  (gaFitnessCore p history reds).map (fun s => max (1 / 100) (min 1 s))

/-- The cumulative roulette walk of `_select` (lines 161-167). -/
def rouletteGo : List (List ℤ × ℚ) → ℚ → ℚ → Option (List ℤ)
  | [], _, _ => none
  | (ind, fit) :: rest, current, pick =>
    if pick ≤ current + fit then some ind else rouletteGo rest (current + fit) pick

/-- `GeneticModel._select` (lines 155-167): degenerate `total <= 0`
branch returns a uniformly random member, otherwise the roulette walk
(falling back to the last member). -/
def gaSelect (population : List (List ℤ)) (fitnesses : List ℚ) (pick : ℚ)
    (f : ℕ → ℕ) : List ℤ :=
  if fitnesses.sum ≤ 0 then population.getD (f 0 % population.length) []
  else
    match rouletteGo (population.zip fitnesses) 0 pick with
    | some ind => ind
    | none => population.getLast?.getD []

/-- C10 counterexample: on a history of exactly 3 draws the fitness
does not evaluate at all — the guard `len(recent) >= 3` admits the
window but `recent[-4]` is out of range (`IndexError`) — so the claim
"for every history the fitness lies in [0.01, 1.0]" fails. -/
theorem C10_fitness_counterexample :
    gaFitness defaultGAParams
      [⟨[1, 2, 3, 4, 5, 6], 7⟩, ⟨[7, 8, 9, 10, 11, 12], 8⟩, ⟨[13, 14, 15, 16, 17, 18], 9⟩]
      [1, 2, 3, 4, 5, 6] = none := by
  rfl

theorem gaFitness_bounds (p : GAParams) (history : List Draw) (reds : List ℤ) (v : ℚ)
    (hv : gaFitness p history reds = some v) : 1 / 100 ≤ v ∧ v ≤ 1 := by
  unfold gaFitness at hv
  rcases hc : gaFitnessCore p history reds with _ | s
  · rw [hc] at hv; simp at hv
  · rw [hc] at hv
    simp only [Option.map_some', Option.some_inj] at hv
    subst hv
    exact ⟨le_max_left _ _, max_le (by norm_num) (min_le_left _ _)⟩

theorem gaFitnessCore_total (p : GAParams) (history : List Draw) (reds : List ℤ)
    (hlen : (pySliceLast p.history_window history).length ≠ 3) :
    ∃ v, gaFitness p history reds = some v := by
  unfold gaFitness gaFitnessCore
  by_cases he : history.isEmpty = true
  · rw [if_pos he]; exact ⟨_, rfl⟩
  · rw [if_neg he]
    by_cases h3 : (pySliceLast p.history_window history).length < 3
    · simp only [if_pos h3]; exact ⟨_, rfl⟩
    · simp only [if_neg h3, if_neg hlen]; exact ⟨_, rfl⟩

theorem fitness_sum_pos (fits : List ℚ) (hne : fits ≠ [])
    (hb : ∀ x ∈ fits, 1 / 100 ≤ x) : 0 < fits.sum := by
  cases fits with
  | nil => exact absurd rfl hne
  | cons a t =>
    have ha := hb a (by simp)
    have ht : 0 ≤ t.sum :=
      List.sum_nonneg (fun x hx => le_trans (by norm_num) (hb x (by simp [hx])))
    rw [List.sum_cons]
    linarith

/-- C10 (amended): whenever the fitness evaluates (every window length
except exactly 3; in particular every history `generate` passes, which
has at least 10 draws), it lies in `[0.01, 1.0]`; consequently for a
non-empty population of evaluated fitnesses the roulette total is
strictly positive and `_select`'s degenerate `total <= 0` branch is
never taken. -/
theorem C10_fitness_clamped :
    (∀ (p : GAParams) (history : List Draw) (reds : List ℤ) (v : ℚ),
       gaFitness p history reds = some v → 1 / 100 ≤ v ∧ v ≤ 1) ∧
    (∀ (p : GAParams) (history : List Draw) (reds : List ℤ),
       (pySliceLast p.history_window history).length ≠ 3 →
       ∃ v, gaFitness p history reds = some v) ∧
    (∀ (population : List (List ℤ)) (fits : List ℚ) (pick : ℚ) (f : ℕ → ℕ),
       fits ≠ [] →
       (∀ x ∈ fits, ∃ p history reds, gaFitness p history reds = some x) →
       0 < fits.sum ∧
       gaSelect population fits pick f =
         (match rouletteGo (population.zip fits) 0 pick with
          | some ind => ind
          | none => population.getLast?.getD [])) := by
  refine ⟨gaFitness_bounds, gaFitnessCore_total, ?_⟩
  intro population fits pick f hne hsrc
  have hb : ∀ x ∈ fits, 1 / 100 ≤ x := by
    intro x hx
    obtain ⟨p, history, reds, hsome⟩ := hsrc x hx
    exact (gaFitness_bounds p history reds x hsome).1
  have hpos := fitness_sum_pos fits hne hb
  refine ⟨hpos, ?_⟩
  unfold gaSelect
  rw [if_neg (not_le.mpr hpos)]

/-- Witness for the amended C10 claim: a concrete fitness evaluation
(empty history, all-even spread combination scores `3/20`), a concrete
totality instance, and a concrete selection avoiding the degenerate
branch. -/
theorem C10_fitness_clamped_witness :
    (1 / 100 ≤ (3 / 20 : ℚ) ∧ (3 / 20 : ℚ) ≤ 1) ∧
    (∃ v, gaFitness defaultGAParams [] [1, 2, 3, 4, 5, 6] = some v) ∧
    (0 < ([3 / 20] : List ℚ).sum ∧
     gaSelect [[2, 8, 14, 20, 26, 32]] [3 / 20] (1 / 10) (fun _ => 0) =
       (match rouletteGo ([[2, 8, 14, 20, 26, 32]].zip [(3 / 20 : ℚ)]) 0 (1 / 10) with
        | some ind => ind
        | none => [[2, 8, 14, 20, 26, 32]].getLast?.getD [])) := by
  have heval : gaFitness defaultGAParams [] [2, 8, 14, 20, 26, 32] = some (3 / 20) := by
    have hemp : (([] : List Draw).isEmpty = true) := rfl
    have hodd : oddCount [2, 8, 14, 20, 26, 32] = 0 := rfl
    have hz1 : (([2, 8, 14, 20, 26, 32] : List ℤ).filter (fun x => x ≤ 11)).length = 2 := rfl
    have hz2 : (([2, 8, 14, 20, 26, 32] : List ℤ).filter (fun x => 12 ≤ x ∧ x ≤ 22)).length
        = 2 := rfl
    have hz3 : (([2, 8, 14, 20, 26, 32] : List ℤ).filter (fun x => 23 ≤ x)).length = 2 := rfl
    have hsum : ([2, 8, 14, 20, 26, 32] : List ℤ).sum = 102 := rfl
    have hadj : adjPairs [2, 8, 14, 20, 26, 32] = 0 := rfl
    have h1 : gaZoneOddSumTail defaultGAParams [2, 8, 14, 20, 26, 32] = 3 / 20 := by
      rw [gaZoneOddSumTail]
      simp only [hodd, hz1, hz2, hz3, hsum, hadj, defaultGAParams]
      norm_num
    rw [gaFitness, gaFitnessCore, if_pos hemp, h1]
    norm_num
  refine ⟨C10_fitness_clamped.1 defaultGAParams [] [2, 8, 14, 20, 26, 32] (3 / 20) heval,
    C10_fitness_clamped.2.1 defaultGAParams [] [1, 2, 3, 4, 5, 6] (by simp [pySliceLast]),
    C10_fitness_clamped.2.2 [[2, 8, 14, 20, 26, 32]] [3 / 20] (1 / 10) (fun _ => 0)
      (by simp) ?_⟩
  intro x hx
  simp only [List.mem_singleton] at hx
  subst hx
  exact ⟨defaultGAParams, [], [2, 8, 14, 20, 26, 32], heval⟩

/-! ## NSGA-II: Pareto dominance and crowding distance
(`markov_model.py` lines 122-189) -/

/-- `np.all(a >= b) and np.any(a > b)` on equal-length fitness vectors
(the dominance test of `_nsga2_select`, line 134). -/
def dominates (a b : List ℚ) : Bool :=
  ((a.zip b).all (fun p => decide (p.2 ≤ p.1))) &&
    ((a.zip b).any (fun p => decide (p.2 < p.1)))

/-- `front_fitness[i][obj]`, with out-of-range reads defaulted (never
exercised on well-formed fronts). -/
def keyOf (front : List (List ℚ)) (obj i : ℕ) : ℚ :=
  (front.getD i []).getD obj 0

/-- `sorted(range(n), key=lambda i: front_fitness[i][obj])` — Python's
stable ascending sort, realised by insertion sort. -/
def cdSortIdx (front : List (List ℚ)) (obj : ℕ) : List ℕ :=
  List.insertionSort (fun i j => keyOf front obj i ≤ keyOf front obj j)
    (List.range front.length)

/-- The interior loop of `_crowding_distance` (lines 186-187):
`distance[s[i]] += (front[s[i+1]][obj] - front[s[i-1]][obj]) / denom`
for `i` in `1 .. n-2`. -/
def cdInterior (front : List (List ℚ)) (obj : ℕ) (s : List ℕ) (denom : ℚ)
    (d : List (WithTop ℚ)) : List (WithTop ℚ) :=
  (List.range' 1 (s.length - 2)).foldl (fun acc i =>
    let p := s.getD i 0
    let delta : ℚ := (keyOf front obj (s.getD (i + 1) 0)
      - keyOf front obj (s.getD (i - 1) 0)) / denom
    acc.set p (acc.getD p 0 + (delta : WithTop ℚ))) d

/-- One objective's pass of `_crowding_distance` (lines 178-187):
infinite distance at the first and last sorted positions, then — unless
`f_max == f_min` — the normalized-gap accumulation at the interior
positions. -/
def cdObjStep (front : List (List ℚ)) (d : List (WithTop ℚ)) (obj : ℕ) :
    List (WithTop ℚ) :=
  let s := cdSortIdx front obj
  let d1 := (d.set (s.headD 0) ⊤).set (s.getLast?.getD 0) ⊤
  let fmax := keyOf front obj (s.getLast?.getD 0)
  let fmin := keyOf front obj (s.headD 0)
  if fmax = fmin then d1
  else cdInterior front obj s (fmax - fmin) d1

/-- `GeneticModel._crowding_distance` (lines 169-189): fronts of size
at most 2 get all-infinite distance, otherwise start from `[0.0] * n`
and run one pass per objective (`m = len(front_fitness[0])`). -/
def crowdingDistance (front : List (List ℚ)) : List (WithTop ℚ) :=
  if front.length ≤ 2 then List.replicate front.length ⊤
  else
    (List.range (front.headD []).length).foldl (cdObjStep front)
      (List.replicate front.length (0 : WithTop ℚ))

theorem sorted_head_of_strict_min {key : ℕ → ℚ} (s : List ℕ)
    (hs : s.Sorted (fun i j => key i ≤ key j)) (i : ℕ) (hi : i ∈ s)
    (hmin : ∀ j ∈ s, j ≠ i → key i < key j) : s.headD 0 = i := by
  cases s with
  | nil => simp at hi
  | cons a t =>
    by_cases hai : a = i
    · simpa using hai
    · exfalso
      have hit : i ∈ t := by
        rcases List.mem_cons.mp hi with h | h
        · exact absurd h.symm hai
        · exact h
      have hle : key a ≤ key i := (List.sorted_cons.mp hs).1 i hit
      have hlt : key i < key a := hmin a (by simp) hai
      exact absurd hle (not_le.mpr hlt)

theorem sorted_getLast_mem_le {key : ℕ → ℚ} :
    ∀ (s : List ℕ), s.Sorted (fun i j => key i ≤ key j) →
      ∀ x ∈ s, key x ≤ key (s.getLast?.getD 0) := by
  intro s
  induction s with
  | nil => intro _ x hx; simp at hx
  | cons a t ih =>
    intro hs x hx
    cases t with
    | nil =>
      simp only [List.mem_singleton] at hx
      subst hx
      simp [List.getLast?]
    | cons b u =>
      have hs' := (List.sorted_cons.mp hs).2
      have hlast : (a :: b :: u).getLast?.getD 0 = (b :: u).getLast?.getD 0 := by
        simp [List.getLast?_cons_cons]
      rw [hlast]
      rcases List.mem_cons.mp hx with h | h
      · subst h
        have hb : key x ≤ key b := (List.sorted_cons.mp hs).1 b (by simp)
        exact le_trans hb (ih hs' b (by simp))
      · exact ih hs' x h

theorem sorted_getLast_of_strict_max {key : ℕ → ℚ} (s : List ℕ)
    (hs : s.Sorted (fun i j => key i ≤ key j)) (i : ℕ) (hi : i ∈ s)
    (hmax : ∀ j ∈ s, j ≠ i → key j < key i) : s.getLast?.getD 0 = i := by
  by_contra hne
  have hlastmem : s.getLast?.getD 0 ∈ s := by
    cases s with
    | nil => simp at hi
    | cons a t =>
      have : (a :: t).getLast? = some ((a :: t).getLast (by simp)) := List.getLast?_eq_getLast _ _
      rw [this]
      exact List.getLast_mem (by simp)
  have h1 : key (s.getLast?.getD 0) < key i := hmax _ hlastmem hne
  have h2 : key i ≤ key (s.getLast?.getD 0) := sorted_getLast_mem_le s hs i hi
  exact absurd h2 (not_le.mpr h1)

theorem getD_set_self (l : List (WithTop ℚ)) (i : ℕ) (v : WithTop ℚ) (h : i < l.length) :
    (l.set i v).getD i 0 = v := by
  rw [List.getD_eq_getElem?_getD, List.getElem?_set_self (by simpa using h)]
  rfl

theorem getD_set_ne (l : List (WithTop ℚ)) (i j : ℕ) (v : WithTop ℚ) (h : i ≠ j) :
    (l.set i v).getD j 0 = l.getD j 0 := by
  rw [List.getD_eq_getElem?_getD, List.getElem?_set_ne h, ← List.getD_eq_getElem?_getD]

theorem getD_top_lt_length (l : List (WithTop ℚ)) (i : ℕ) (h : l.getD i 0 = ⊤) :
    i < l.length := by
  by_contra hge
  rw [List.getD_eq_getElem?_getD, List.getElem?_eq_none (by omega)] at h
  simp at h

theorem set_add_preserves_top (acc : List (WithTop ℚ)) (p : ℕ) (δ : WithTop ℚ) (i : ℕ)
    (h : acc.getD i 0 = ⊤) :
    (acc.set p (acc.getD p 0 + δ)).getD i 0 = ⊤ := by
  by_cases hpi : p = i
  · subst hpi
    rw [getD_set_self acc p _ (getD_top_lt_length acc p h), h, top_add]
  · rw [getD_set_ne acc p i _ hpi, h]

theorem cdInterior_preserves_top (front : List (List ℚ)) (obj : ℕ) (s : List ℕ)
    (denom : ℚ) (d : List (WithTop ℚ)) (i : ℕ) (h : d.getD i 0 = ⊤) :
    (cdInterior front obj s denom d).getD i 0 = ⊤ := by
  unfold cdInterior
  generalize List.range' 1 (s.length - 2) = idxs
  induction idxs generalizing d with
  | nil => exact h
  | cons a t ih =>
    simp only [List.foldl_cons]
    exact ih _ (set_add_preserves_top d _ _ i h)

theorem cdInterior_length (front : List (List ℚ)) (obj : ℕ) (s : List ℕ)
    (denom : ℚ) (d : List (WithTop ℚ)) :
    (cdInterior front obj s denom d).length = d.length := by
  unfold cdInterior
  generalize List.range' 1 (s.length - 2) = idxs
  induction idxs generalizing d with
  | nil => rfl
  | cons a t ih =>
    simp only [List.foldl_cons]
    rw [ih]
    exact List.length_set _ _ _

theorem cdObjStep_preserves_top (front : List (List ℚ)) (d : List (WithTop ℚ))
    (obj i : ℕ) (h : d.getD i 0 = ⊤) :
    (cdObjStep front d obj).getD i 0 = ⊤ := by
  unfold cdObjStep
  have hd1 : ((d.set ((cdSortIdx front obj).headD 0) ⊤).set
      ((cdSortIdx front obj).getLast?.getD 0) ⊤).getD i 0 = ⊤ := by
    by_cases h2 : (cdSortIdx front obj).getLast?.getD 0 = i
    · subst h2
      exact getD_set_self _ _ _ (by
        rw [List.length_set]
        exact getD_top_lt_length d _ (by
          by_cases h1 : (cdSortIdx front obj).headD 0 = (cdSortIdx front obj).getLast?.getD 0
          · rw [← h1] at h ⊢; exact h
          · exact h))
    · rw [getD_set_ne _ _ _ _ h2]
      by_cases h1 : (cdSortIdx front obj).headD 0 = i
      · subst h1
        exact getD_set_self _ _ _ (getD_top_lt_length d _ h)
      · rw [getD_set_ne _ _ _ _ h1]
        exact h
  dsimp only
  split_ifs
  · exact hd1
  · exact cdInterior_preserves_top _ _ _ _ _ _ hd1

theorem cdObjStep_length (front : List (List ℚ)) (d : List (WithTop ℚ)) (obj : ℕ) :
    (cdObjStep front d obj).length = d.length := by
  unfold cdObjStep
  dsimp only
  split_ifs
  · simp [List.length_set]
  · rw [cdInterior_length]
    simp [List.length_set]

theorem cdSortIdx_perm (front : List (List ℚ)) (obj : ℕ) :
    (cdSortIdx front obj).Perm (List.range front.length) :=
  List.perm_insertionSort _ _

theorem cdSortIdx_sorted (front : List (List ℚ)) (obj : ℕ) :
    (cdSortIdx front obj).Sorted (fun i j => keyOf front obj i ≤ keyOf front obj j) := by
  haveI : IsTotal ℕ (fun i j => keyOf front obj i ≤ keyOf front obj j) :=
    ⟨fun a b => le_total _ _⟩
  haveI : IsTrans ℕ (fun i j => keyOf front obj i ≤ keyOf front obj j) :=
    ⟨fun a b c hab hbc => le_trans hab hbc⟩
  exact List.sorted_insertionSort _ _

theorem cdObjStep_sets_top (front : List (List ℚ)) (d : List (WithTop ℚ)) (obj i : ℕ)
    (hlen : d.length = front.length) (hi : i < front.length)
    (hext : (∀ j < front.length, j ≠ i → keyOf front obj i < keyOf front obj j) ∨
            (∀ j < front.length, j ≠ i → keyOf front obj j < keyOf front obj i)) :
    (cdObjStep front d obj).getD i 0 = ⊤ := by
  have hperm := cdSortIdx_perm front obj
  have hsorted := cdSortIdx_sorted front obj
  have hmem : i ∈ cdSortIdx front obj := hperm.mem_iff.mpr (List.mem_range.mpr hi)
  have hmemn : ∀ j ∈ cdSortIdx front obj, j < front.length := by
    intro j hj
    exact List.mem_range.mp (hperm.mem_iff.mp hj)
  have hd1 : ((d.set ((cdSortIdx front obj).headD 0) ⊤).set
      ((cdSortIdx front obj).getLast?.getD 0) ⊤).getD i 0 = ⊤ := by
    rcases hext with hmin | hmax
    · have hhead : (cdSortIdx front obj).headD 0 = i :=
        sorted_head_of_strict_min _ hsorted i hmem
          (fun j hj hne => hmin j (hmemn j hj) hne)
      rw [hhead]
      by_cases hlast : (cdSortIdx front obj).getLast?.getD 0 = i
      · rw [hlast]
        exact getD_set_self _ _ _ (by rw [List.length_set, hlen]; exact hi)
      · rw [getD_set_ne _ _ _ _ hlast]
        exact getD_set_self _ _ _ (by rw [hlen]; exact hi)
    · have hlast : (cdSortIdx front obj).getLast?.getD 0 = i :=
        sorted_getLast_of_strict_max _ hsorted i hmem
          (fun j hj hne => hmax j (hmemn j hj) hne)
      rw [hlast]
      exact getD_set_self _ _ _ (by rw [List.length_set, hlen]; exact hi)
  unfold cdObjStep
  dsimp only
  split_ifs
  · exact hd1
  · exact cdInterior_preserves_top _ _ _ _ _ _ hd1

theorem foldl_cdObjStep_preserves_top (front : List (List ℚ)) (objs : List ℕ) (i : ℕ) :
    ∀ d : List (WithTop ℚ), d.getD i 0 = ⊤ →
      (objs.foldl (cdObjStep front) d).getD i 0 = ⊤ := by
  induction objs with
  | nil => intro d h; exact h
  | cons o rest ih =>
    intro d h
    simp only [List.foldl_cons]
    exact ih _ (cdObjStep_preserves_top front d o i h)

theorem foldl_cdObjStep_sets_top (front : List (List ℚ)) (objs : List ℕ) (obj i : ℕ)
    (hi : i < front.length)
    (hext : (∀ j < front.length, j ≠ i → keyOf front obj i < keyOf front obj j) ∨
            (∀ j < front.length, j ≠ i → keyOf front obj j < keyOf front obj i)) :
    ∀ d : List (WithTop ℚ), obj ∈ objs → d.length = front.length →
      (objs.foldl (cdObjStep front) d).getD i 0 = ⊤ := by
  induction objs with
  | nil => intro d h; simp at h
  | cons o rest ih =>
    intro d hobj hlen
    simp only [List.foldl_cons]
    by_cases ho : o = obj
    · subst ho
      exact foldl_cdObjStep_preserves_top front rest i _
        (cdObjStep_sets_top front d o i hlen hi hext)
    · have hrest : obj ∈ rest := by
        rcases List.mem_cons.mp hobj with h | h
        · exact absurd h.symm ho
        · exact h
      exact ih _ hrest (by rw [cdObjStep_length, hlen])

/-- Amended boundary property: a STRICT per-objective minimum or
maximum of a front with at least 3 members receives infinite crowding
distance. -/
theorem crowding_strict_extremal_top (front : List (List ℚ)) (i obj : ℕ)
    (hn : 3 ≤ front.length) (hi : i < front.length)
    (hobj : obj < (front.headD []).length)
    (hext : (∀ j < front.length, j ≠ i → keyOf front obj i < keyOf front obj j) ∨
            (∀ j < front.length, j ≠ i → keyOf front obj j < keyOf front obj i)) :
    (crowdingDistance front).getD i 0 = ⊤ := by
  unfold crowdingDistance
  rw [if_neg (by omega)]
  exact foldl_cdObjStep_sets_top front _ obj i hi hext _
    (List.mem_range.mpr hobj) (by simp)

theorem crowding_small_front_top (front : List (List ℚ)) (h : front.length ≤ 2)
    (i : ℕ) (hi : i < front.length) :
    (crowdingDistance front).getD i 0 = ⊤ := by
  unfold crowdingDistance
  rw [if_pos h, List.getD_eq_getElem?_getD, List.getElem?_replicate]
  simp [hi]

theorem cdSortIdx_ties_eval (obj : ℕ) (hobj : obj < 2) :
    cdSortIdx [[0, 0], [0, 0], [1, 1]] obj = [0, 1, 2] := by
  interval_cases obj
  · decide
  · decide

/-- C9 counterexample: in the front `[[0,0],[0,0],[1,1]]`, individual 1
attains the minimum value in objective 0 (it ties individual 0), yet
its crowding distance is the finite value 2 — only the first-sorted
minimum and last-sorted maximum get infinity, so under ties the claim
"every individual that is the minimum or maximum of the front in some
objective receives infinite distance" fails. -/
theorem C9_crowding_ties_counterexample :
    (∀ j < 3, keyOf [[0, 0], [0, 0], [1, 1]] 0 1 ≤ keyOf [[0, 0], [0, 0], [1, 1]] 0 j) ∧
    (crowdingDistance [[0, 0], [0, 0], [1, 1]]).getD 1 0 = ((2 : ℚ) : WithTop ℚ) ∧
    ((2 : ℚ) : WithTop ℚ) ≠ (⊤ : WithTop ℚ) := by
  refine ⟨by decide, ?_, WithTop.coe_ne_top⟩
  have hs0 := cdSortIdx_ties_eval 0 (by norm_num)
  have hs1 := cdSortIdx_ties_eval 1 (by norm_num)
  rw [crowdingDistance]
  rw [if_neg (by norm_num)]
  rw [show (List.range ([[(0 : ℚ), 0], [0, 0], [1, 1]].headD []).length) = [0, 1] from rfl,
      show (List.replicate ([[(0 : ℚ), 0], [0, 0], [1, 1]]).length (0 : WithTop ℚ))
        = [0, 0, 0] from rfl]
  simp only [List.foldl_cons, List.foldl_nil]
  simp only [cdObjStep, cdInterior, keyOf, hs0, hs1]
  norm_num

/-- C9 (amended): the dominance relation behaves exactly as claimed on
the sample vectors, fronts of size at most 2 get all-infinite crowding
distance, and every STRICT per-objective minimum or maximum of a front
receives infinite crowding distance; under ties only the first-sorted
minimum and last-sorted maximum are guaranteed infinity. -/
theorem C9_dominance_and_crowding :
    dominates [1, 1, 1, 1, 1] [0, 0, 0, 0, 0] = true ∧
    dominates [1, 0] [0, 1] = false ∧
    dominates [0, 1] [1, 0] = false ∧
    (∀ front : List (List ℚ), front.length ≤ 2 → ∀ i < front.length,
       (crowdingDistance front).getD i 0 = ⊤) ∧
    (∀ (front : List (List ℚ)) (i obj : ℕ), 3 ≤ front.length → i < front.length →
       obj < (front.headD []).length →
       ((∀ j < front.length, j ≠ i → keyOf front obj i < keyOf front obj j) ∨
        (∀ j < front.length, j ≠ i → keyOf front obj j < keyOf front obj i)) →
       (crowdingDistance front).getD i 0 = ⊤) :=
  ⟨by decide, by decide, by decide,
   fun front h i hi => crowding_small_front_top front h i hi,
   fun front i obj hn hi hobj hext =>
     crowding_strict_extremal_top front i obj hn hi hobj hext⟩

/-- Witness for the amended C9 claim: a 2-element front gets infinity,
and the strict minimum of `[[0],[1],[2]]` in its single objective gets
infinity. -/
theorem C9_dominance_and_crowding_witness :
    (crowdingDistance [[0], [1]]).getD 0 0 = ⊤ ∧
    (crowdingDistance [[0], [1], [2]]).getD 0 0 = ⊤ :=
  ⟨C9_dominance_and_crowding.2.2.2.1 [[0], [1]] (by decide) 0 (by decide),
   C9_dominance_and_crowding.2.2.2.2 [[0], [1], [2]] 0 0 (by decide) (by decide)
     (by decide) (Or.inl (by decide))⟩

/-! ## Backtest simulator (`services/backtest_service.py`,
`tasks/backtest_tasks.py`)

`Decimal` amounts are `ℚ`; the persistence rounding of the stored copy
(`round(..., 4)`) is a representation detail of the result sink and is
not modelled.  A raising `engine.generate_with_custom_history` is an
`Except.error`. -/

/-- `len(set(pred["reds"]) & red_set)`. -/
def interCount (a b : List ℤ) : ℕ :=
  (a.dedup.filter (fun x => x ∈ b)).length

/-- `PRIZE_RULES.get((red_hit, blue_hit), 0)` (lines 16-27). -/
def prizeOf (redHit blueHit : ℕ) : ℚ :=
  if redHit = 6 ∧ blueHit = 1 then 5000000
  else if redHit = 6 ∧ blueHit = 0 then 1000000
  else if redHit = 5 ∧ blueHit = 1 then 300000
  else if redHit = 5 ∧ blueHit = 0 then 100000
  else if redHit = 4 ∧ blueHit = 1 then 3000
  else if redHit = 4 ∧ blueHit = 0 then 200
  else if redHit = 3 ∧ blueHit = 1 then 200
  else if redHit = 2 ∧ blueHit = 1 then 10
  else if redHit = 1 ∧ blueHit = 1 then 5
  else if redHit = 0 ∧ blueHit = 1 then 5
  else 0

/-- The accumulating replay state (`execute_backtest` lines 91-97). -/
structure BTState where
  total_profit : ℚ
  total_bets : ℚ
  win3 : ℕ
  cur_streak : ℕ
  max_streak : ℕ
  red_hits : List ℕ

/-- The initial replay state. -/
def btInit : BTState :=
  { total_profit := 0, total_bets := 0, win3 := 0
    cur_streak := 0, max_streak := 0, red_hits := [] }

/-- The replay loop (`execute_backtest` lines 99-137) over the period
indices `idxs`: predict from the prefix, compare with the actual draw,
score via the prize table, fold profit / hit / streak state.  A raising
prediction aborts the whole loop. -/
def btFold (pred : List Draw → Except String (List ℤ × ℤ)) (draws : List Draw)
    (bet : ℚ) : List ℕ → BTState → Except String BTState
  | [], st => .ok st
  | i :: rest, st =>
    match pred (draws.take i) with
    | .error e => .error e
    | .ok p =>
      let actual := draws.getD i ⟨[], 0⟩
      let redHit := interCount p.1 actual.reds
      let blueHit := if p.2 = actual.blue then 1 else 0
      let profit := prizeOf redHit blueHit - bet
      btFold pred draws bet rest
        { total_profit := st.total_profit + profit
          total_bets := st.total_bets + bet
          win3 := st.win3 + (if 3 ≤ redHit then 1 else 0)
          cur_streak := if 3 ≤ redHit then st.cur_streak + 1 else 0
          max_streak := if 3 ≤ redHit then max st.max_streak (st.cur_streak + 1)
            else st.max_streak
          red_hits := st.red_hits ++ [redHit] }

/-- The finalized statistics (`execute_backtest` lines 139-166). -/
structure BTStats where
  periods : ℕ
  avg_hit : ℚ
  hit_rate : ℚ
  roi : ℚ
  total_profit : ℚ
  max_streak : ℕ

/-- `execute_backtest`: insufficient-data guard, replay loop from
`history_window` to the end, then the finalize formulas. -/
def executeBacktest (pred : List Draw → Except String (List ℤ × ℤ))
    (draws : List Draw) (bet : ℚ) (window : ℕ) : Except String BTStats :=
  if draws.length < 50 then .error "insufficient data"
  else
    match btFold pred draws bet (List.range' window (draws.length - window)) btInit with
    | .error e => .error e
    | .ok st =>
      let periods := st.red_hits.length
      .ok { periods := periods
            avg_hit := if periods = 0 then 0 else (st.red_hits.sum : ℚ) / (periods : ℚ)
            hit_rate := if periods = 0 then 0 else (st.win3 : ℚ) / (periods : ℚ) * 100
            roi := if 0 < st.total_bets then st.total_profit / st.total_bets * 100 else 0
            total_profit := st.total_profit
            max_streak := st.max_streak }

/-- The backtest-record row as the task machinery sees it:
`start_backtest` creates it with status `"running"`; the stat columns
are written only by the finalize block. -/
structure BacktestRecord where
  status : String
  periods : Option ℕ
  avg_hit : Option ℚ
  hit_rate : Option ℚ
  roi : Option ℚ
  total_profit : Option ℚ
  max_streak : Option ℕ
  curve_set : Bool

/-- What `run_backtest_task` does to the record: on success
`execute_backtest`'s trailing block finalizes it (status
`"completed"`); on an exception the task only retries/re-raises —
nothing in the code base ever writes status `"failed"` or partial
stats. -/
def applyBacktest (rec : BacktestRecord)
    (pred : List Draw → Except String (List ℤ × ℤ)) (draws : List Draw)
    (bet : ℚ) (window : ℕ) : BacktestRecord :=
  match executeBacktest pred draws bet window with
  | .ok stats =>
    { status := "completed", periods := some stats.periods
      avg_hit := some stats.avg_hit, hit_rate := some stats.hit_rate
      roi := some stats.roi, total_profit := some stats.total_profit
      max_streak := some stats.max_streak, curve_set := true }
  | .error _ => rec

/-- C5 counterexample: a concrete 51-draw range whose strategy raises
on the very first replayed period.  The record stays exactly as created
— status `"running"`, statistics unset — and is NOT marked
`"failed"`. -/
theorem C5_no_failed_marking_counterexample :
    applyBacktest ⟨"running", none, none, none, none, none, none, false⟩
      (fun _ => .error "boom") (List.replicate 51 ⟨[1, 2, 3, 4, 5, 6], 7⟩) 2 50 =
      ⟨"running", none, none, none, none, none, none, false⟩ ∧
    (applyBacktest ⟨"running", none, none, none, none, none, none, false⟩
      (fun _ => .error "boom") (List.replicate 51 ⟨[1, 2, 3, 4, 5, 6], 7⟩) 2 50).status
      ≠ "failed" := by
  have h1 : applyBacktest ⟨"running", none, none, none, none, none, none, false⟩
      (fun _ => .error "boom") (List.replicate 51 ⟨[1, 2, 3, 4, 5, 6], 7⟩) 2 50 =
      ⟨"running", none, none, none, none, none, none, false⟩ := rfl
  refine ⟨h1, ?_⟩
  rw [h1]
  simp

/-- C5 (amended): an exception during the replay loop leaves the
backtest record exactly as it was: no partial statistics are finalized
— but the record is NOT marked `"failed"` either; its status can only
ever be its prior value (in deployment `"running"`) or
`"completed"`. -/
theorem C5_exception_leaves_record :
    (∀ (rec : BacktestRecord) (pred : List Draw → Except String (List ℤ × ℤ))
       (draws : List Draw) (bet : ℚ) (window : ℕ) (e : String),
       executeBacktest pred draws bet window = .error e →
       applyBacktest rec pred draws bet window = rec) ∧
    (∀ (rec : BacktestRecord) (pred : List Draw → Except String (List ℤ × ℤ))
       (draws : List Draw) (bet : ℚ) (window : ℕ),
       (applyBacktest rec pred draws bet window).status = "completed" ∨
       (applyBacktest rec pred draws bet window).status = rec.status) := by
  constructor
  · intro rec pred draws bet window e he
    unfold applyBacktest
    rw [he]
  · intro rec pred draws bet window
    unfold applyBacktest
    rcases executeBacktest pred draws bet window with e | stats
    · exact Or.inr rfl
    · exact Or.inl rfl

/-- Witness for the amended C5 claim at the concrete failing replay. -/
theorem C5_exception_leaves_record_witness :
    applyBacktest ⟨"running", none, none, none, none, none, none, false⟩
      (fun _ => .error "boom") (List.replicate 51 ⟨[1, 2, 3, 4, 5, 6], 7⟩) 2 50 =
      ⟨"running", none, none, none, none, none, none, false⟩ ∧
    ((applyBacktest ⟨"pending", none, none, none, none, none, none, false⟩
        (fun _ => .error "x") [] 2 50).status = "completed" ∨
     (applyBacktest ⟨"pending", none, none, none, none, none, none, false⟩
        (fun _ => .error "x") [] 2 50).status = "pending") :=
  ⟨C5_exception_leaves_record.1 _ _ _ 2 50 "boom" rfl,
   C5_exception_leaves_record.2 ⟨"pending", none, none, none, none, none, none, false⟩
     (fun _ => .error "x") [] 2 50⟩

/-- The replay-loop bookkeeping invariant: the `win_3plus` counter
counts exactly the logged periods with at least 3 red hits, and the
cumulative bet is the bet amount times the number of logged periods. -/
def BTInv (bet : ℚ) (st : BTState) : Prop :=
  st.win3 = (st.red_hits.filter (fun h => 3 ≤ h)).length ∧
  st.total_bets = (st.red_hits.length : ℚ) * bet

theorem btFold_inv (pred : List Draw → Except String (List ℤ × ℤ)) (draws : List Draw)
    (bet : ℚ) : ∀ (idxs : List ℕ) (st st' : BTState),
      btFold pred draws bet idxs st = .ok st' → BTInv bet st → BTInv bet st' := by
  intro idxs
  induction idxs with
  | nil =>
    intro st st' h hinv
    simp only [btFold] at h
    cases h
    exact hinv
  | cons i rest ih =>
    intro st st' h hinv
    rw [btFold] at h
    rcases hp : pred (draws.take i) with e | p
    · rw [hp] at h; exact absurd h (by simp)
    · rw [hp] at h
      dsimp only at h
      refine ih _ st' h ⟨?_, ?_⟩
      · simp only [List.filter_append, List.length_append, hinv.1, List.filter_cons,
          List.filter_nil, decide_eq_true_eq]
        split_ifs <;> simp
      · simp only [List.length_append, List.length_cons, List.length_nil, hinv.2]
        push_cast
        ring

theorem btStats_formulas (pred : List Draw → Except String (List ℤ × ℤ))
    (draws : List Draw) (bet : ℚ) (window : ℕ) (stats : BTStats)
    (h : executeBacktest pred draws bet window = .ok stats) :
    ∃ st : BTState,
      btFold pred draws bet (List.range' window (draws.length - window)) btInit = .ok st ∧
      stats.periods = st.red_hits.length ∧
      stats.total_profit = st.total_profit ∧
      stats.max_streak = st.max_streak ∧
      (stats.periods ≠ 0 →
        stats.avg_hit = (st.red_hits.sum : ℚ) / (stats.periods : ℚ) ∧
        stats.hit_rate = ((st.red_hits.filter (fun k => 3 ≤ k)).length : ℚ)
          / (stats.periods : ℚ) * 100) ∧
      (0 < st.total_bets → stats.roi = st.total_profit / st.total_bets * 100) := by
  unfold executeBacktest at h
  by_cases hlt : draws.length < 50
  · rw [if_pos hlt] at h
    exact absurd h (by simp)
  · rw [if_neg hlt] at h
    rcases hfold : btFold pred draws bet (List.range' window (draws.length - window)) btInit
      with e | st
    · rw [hfold] at h; exact absurd h (by simp)
    · rw [hfold] at h
      dsimp only at h
      rw [Except.ok.injEq] at h
      have hinv := btFold_inv pred draws bet _ _ _ hfold ⟨rfl, by simp [btInit]⟩
      refine ⟨st, rfl, ?_⟩
      subst h
      refine ⟨rfl, rfl, rfl, ?_, ?_⟩
      · intro hne
        simp only at hne ⊢
        rw [if_neg hne, if_neg hne, hinv.1]
        exact ⟨rfl, rfl⟩
      · intro hpos
        simp only
        rw [if_pos hpos]

theorem btPerfect (pred : List Draw → Except String (List ℤ × ℤ))
    (draws : List Draw) (bet : ℚ)
    (hlen : draws.length = 51)
    (hwf : ∀ d ∈ draws, d.reds.length = 6 ∧ d.reds.Nodup)
    (hpred : pred (draws.take 50) =
      .ok ((draws.getD 50 ⟨[], 0⟩).reds, (draws.getD 50 ⟨[], 0⟩).blue)) :
    ∃ stats, executeBacktest pred draws bet 50 = .ok stats ∧
      stats.hit_rate = 100 ∧ stats.avg_hit = 6 := by
  have h50 : (50 : ℕ) < draws.length := by omega
  have hmem : draws.getD 50 ⟨[], 0⟩ ∈ draws := by
    rw [List.getD_eq_getElem draws _ h50]
    exact List.getElem_mem h50
  obtain ⟨hwl, hwn⟩ := hwf _ hmem
  have hhit : interCount (draws.getD 50 ⟨[], 0⟩).reds (draws.getD 50 ⟨[], 0⟩).reds = 6 := by
    unfold interCount
    rw [List.dedup_eq_self.mpr hwn]
    rw [List.filter_eq_self.mpr (fun a ha => by simpa using ha)]
    exact hwl
  have hrange : List.range' 50 (draws.length - 50) = [50] := by
    rw [hlen]
    rfl
  unfold executeBacktest
  rw [if_neg (by omega)]
  rw [hrange]
  rw [btFold, hpred]
  dsimp only
  rw [btFold]
  simp only [List.getD_eq_getElem?_getD] at hhit
  refine ⟨_, rfl, ?_, ?_⟩
  · norm_num [btInit, hhit]
  · norm_num [btInit, hhit]

/-- C6: at finalization `avg_hit` is the mean red-hit count over the
replayed periods, `hit_rate` is the fraction of periods with at least 3
red hits as a percentage, and `roi` is cumulative profit over cumulative
bet times 100; and on a 51-draw range (default window 50) where the
strategy predicts the next actual draw exactly, the finalized run has
`hit_rate = 100` and `avg_hit = 6`. -/
theorem C6_backtest_finalize :
    (∀ (pred : List Draw → Except String (List ℤ × ℤ)) (draws : List Draw)
       (bet : ℚ) (window : ℕ) (stats : BTStats),
       executeBacktest pred draws bet window = .ok stats →
       ∃ st : BTState,
         btFold pred draws bet (List.range' window (draws.length - window)) btInit
           = .ok st ∧
         stats.periods = st.red_hits.length ∧
         stats.total_profit = st.total_profit ∧
         stats.max_streak = st.max_streak ∧
         (stats.periods ≠ 0 →
           stats.avg_hit = (st.red_hits.sum : ℚ) / (stats.periods : ℚ) ∧
           stats.hit_rate = ((st.red_hits.filter (fun k => 3 ≤ k)).length : ℚ)
             / (stats.periods : ℚ) * 100) ∧
         (0 < st.total_bets → stats.roi = st.total_profit / st.total_bets * 100)) ∧
    (∀ (pred : List Draw → Except String (List ℤ × ℤ)) (draws : List Draw) (bet : ℚ),
       draws.length = 51 →
       (∀ d ∈ draws, d.reds.length = 6 ∧ d.reds.Nodup) →
       pred (draws.take 50) =
         .ok ((draws.getD 50 ⟨[], 0⟩).reds, (draws.getD 50 ⟨[], 0⟩).blue) →
       ∃ stats, executeBacktest pred draws bet 50 = .ok stats ∧
         stats.hit_rate = 100 ∧ stats.avg_hit = 6) :=
  ⟨btStats_formulas,
   fun pred draws bet hlen hwf hpred => btPerfect pred draws bet hlen hwf hpred⟩

/-- Witness for C6: the constant perfect predictor on 51 identical
draws. -/
theorem C6_backtest_finalize_witness :
    ∃ stats, executeBacktest (fun _ => .ok ([1, 2, 3, 4, 5, 6], 7))
      (List.replicate 51 ⟨[1, 2, 3, 4, 5, 6], 7⟩) 2 50 = .ok stats ∧
      stats.hit_rate = 100 ∧ stats.avg_hit = 6 :=
  C6_backtest_finalize.2 (fun _ => .ok ([1, 2, 3, 4, 5, 6], 7))
    (List.replicate 51 ⟨[1, 2, 3, 4, 5, 6], 7⟩) 2 (by simp)
    (fun d hd => by rw [List.eq_of_mem_replicate hd]; exact ⟨rfl, by decide⟩) rfl

end SSQ
